import Mathlib

/-!
# The openbox menu registry (`openbox/menu.c`)

A shallow embedding of the menu registry of `openbox/menu.c`: the global hash
table `menu_hash`, the menu and entry records, the registry operations
(`menu_new`, `menu_free`, `menu_add_*`, `menu_set_*_func`, ...) and the
document-driven builder (`parse_menu`, `parse_menu_item`,
`parse_menu_separator`).

Conventions of the embedding.

* The C program state is the record `State`: the table `menu_hash`, an
  allocation counter for `ObMenu` records, and the chronological list of
  calls made to the collaborators outside `menu.c` (`trace`).
* A nullable pointer is an `Option`; `none` is `NULL`.
* An `ObMenu *` is identified by the address `addr` of the record.  The record
  itself is stored in the table, at the key under which the pointer is
  registered; an assignment through `self->` is rendered by writing the
  changed record back at that key.
* Callbacks and owner data are opaque handles.  Invoking a callback and
  calling a collaborator is recorded in `trace`; their own effects are
  outside `menu.c`.
-/

namespace Openbox

/-! ## Data model -/

/-- Address of an `ObMenu` record (the value of an `ObMenu *`). -/
abbrev MenuPtr := Nat

/-- Handle of an action object (`ObAction *`), opaque to `menu.c`. -/
abbrev ObAction := Nat

/-- An opaque C pointer (`gpointer`, or a function pointer); `none` is `NULL`. -/
abbrev gpointer := Option Nat

/-- Modelled from the spec: `menu.h` is not among the sources.  The type tag
of an entry: a normal item, a link to another menu, or a separator. -/
inductive ObMenuEntryType where
  | OB_MENU_ENTRY_TYPE_NORMAL
  | OB_MENU_ENTRY_TYPE_SUBMENU
  | OB_MENU_ENTRY_TYPE_SEPARATOR
  deriving DecidableEq, Repr

/-- Modelled from the spec: `menu.h` is not among the sources.  The payload of
a Normal entry (`data.normal`): label, enabled flag, ordered action list. -/
structure ObNormalMenuEntry where
  label : Option String
  enabled : Bool
  actions : List ObAction
  deriving DecidableEq, Repr

/-- Modelled from the spec: `menu.h` is not among the sources.  The payload of
a Submenu entry (`data.submenu`): a non-owning pointer to the target menu. -/
structure ObSubmenuMenuEntry where
  submenu : Option MenuPtr
  deriving DecidableEq, Repr

/-- Modelled from the spec: `menu.h` is not among the sources.  The payload
union of an entry.  `menu.c` reads only the member selected by the type tag
and `g_new0` zeroes the whole union, so the two members are kept side by
side, each with its zero value until it is assigned. -/
structure ObMenuEntryData where
  normal : ObNormalMenuEntry
  submenu : ObSubmenuMenuEntry
  deriving DecidableEq, Repr

/-- Modelled from the spec: `menu.h` is not among the sources.  One row of a
menu: type tag, back-reference to the owning menu, caller-assigned id and
payload, as used by `menu_entry_new`. -/
structure ObMenuEntry where
  type : ObMenuEntryType
  menu : MenuPtr
  id : Int
  data : ObMenuEntryData
  deriving DecidableEq, Repr

/-- Modelled from the spec: `menu.h` is not among the sources.  A menu: name,
title, owner data, ordered entries and the three callback slots, as used by
`menu_new`.  `addr` is the address of the record, not a C field. -/
structure ObMenu where
  addr : MenuPtr
  name : String
  title : Option String
  data : gpointer
  entries : List ObMenuEntry
  update_func : gpointer
  execute_func : gpointer
  destroy_func : gpointer
  deriving DecidableEq, Repr

/-- Calls that leave `menu.c`, in the order they are made. -/
inductive Event where
  /-- The `g_warning` of `menu_from_name` for an unknown name. -/
  | warn_no_menu (name : String)
  /-- The `g_warning` of `menu_open_plugin`. -/
  | warn_plugin (plugin name : String)
  /-- The call `self->destroy_func(self, self->data)`. -/
  | destroy_func (fn : Nat) (self : MenuPtr) (data : gpointer)
  /-- The call `action_free(a)`. -/
  | action_free (a : ObAction)
  /-- The call `g_free(self)` releasing an entry record in `menu_entry_free`. -/
  | entry_free (e : ObMenuEntry)
  /-- The call `menu_frame_hide_all()`. -/
  | menu_frame_hide_all
  /-- The call `menu_frame_new(self, client)`. -/
  | menu_frame_new (self : MenuPtr) (client : gpointer)
  /-- The call `menu_frame_move(frame, x, y)`. -/
  | menu_frame_move (x y : Int)
  /-- The call `menu_frame_show(frame, NULL)`. -/
  | menu_frame_show
  deriving DecidableEq, Repr

/-- The contents of a `GHashTable` keyed by strings (`g_str_hash`,
`g_str_equal`), in its iteration order. -/
abbrev Table := List (String × ObMenu)

/-- The program state seen by `menu.c`. -/
structure State where
  /-- The global `menu_hash`; `none` before `menu_startup` and after
  `menu_shutdown`. -/
  menu_hash : Option Table
  /-- The address the next `g_new0(ObMenu, 1)` returns. -/
  next_addr : Nat
  /-- The calls made so far to the collaborators, oldest first. -/
  trace : List Event
  deriving DecidableEq, Repr

/-! ## GLib collaborators -/

/-- The entry stored under `key`, if any. -/
def Table.lookup : Table → String → Option ObMenu
  | [], _ => none
  | (k, v) :: rest, key => if k = key then some v else Table.lookup rest key

/-- Overwrite the record stored under `key` (a write through the pointer the
lookup of `key` returned). -/
def Table.write : Table → String → ObMenu → Table
  | [], _, _ => []
  | (k, v) :: rest, key, m =>
    if k = key then (k, m) :: rest else (k, v) :: Table.write rest key m

/-- The table without the key `key`. -/
def Table.remove (t : Table) (key : String) : Table :=
  t.filter (fun kv => decide (kv.1 ≠ key))

/-- GLib `g_hash_table_lookup`; on a `NULL` table it returns `NULL`. -/
def g_hash_table_lookup (h : Option Table) (key : String) : Option ObMenu :=
  match h with
  | none => none
  | some t => t.lookup key

/-- GLib `g_hash_table_insert`; a `NULL` table is left alone.  A new key is
added, the value of a present key is replaced (`menu_new` only inserts keys
it has just found absent). -/
def g_hash_table_insert (h : Option Table) (key : String) (v : ObMenu) : Option Table :=
  match h with
  | none => none
  | some t =>
    if (t.lookup key).isSome then some (t.write key v) else some (t ++ [(key, v)])

/-- The record behind a registered `ObMenu *` after an assignment through it. -/
def store (h : Option Table) (key : String) (self : ObMenu) : Option Table :=
  match h with
  | none => none
  | some t => some (t.write key self)

/-- GLib `g_strdup`: an equal copy, `NULL` for `NULL`. -/
def g_strdup (s : Option String) : Option String := s

/-- GLib `g_slist_append` / `g_list_append`. -/
def g_list_append {α : Type} (l : List α) (x : α) : List α := l ++ [x]

/-- GLib `g_slist_prepend`. -/
def g_slist_prepend {α : Type} (l : List α) (x : α) : List α := x :: l

/-- GLib `g_slist_delete_link(l, l)`: drop the first link. -/
def g_slist_delete_link_head {α : Type} (l : List α) : List α := l.tail

/-! ## Lookup -/

/-- The function `menu_from_name`: look the name up, warn when it is absent. -/
def menu_from_name (name : String) (s : State) : Option ObMenu × State :=
  match g_hash_table_lookup s.menu_hash name with
  | none => (none, { s with trace := s.trace ++ [Event.warn_no_menu name] })
  | some self => (some self, s)

/-! ## Entries -/

/-- The function `menu_entry_new`: a zeroed record with type, owner and id
set; a Normal entry starts enabled. -/
def menu_entry_new (menu : ObMenu) (type : ObMenuEntryType) (id : Int) : ObMenuEntry :=
  let self : ObMenuEntry :=
    { type := type, menu := menu.addr, id := id,
      data := { normal := { label := none, enabled := false, actions := [] },
                submenu := { submenu := none } } }
  match type with
  | .OB_MENU_ENTRY_TYPE_NORMAL => { self with data.normal.enabled := true }
  | .OB_MENU_ENTRY_TYPE_SUBMENU => self
  | .OB_MENU_ENTRY_TYPE_SEPARATOR => self

/-- The `while (self->data.normal.actions)` loop of `menu_entry_free`: free
the head action, drop the head link, until the list is empty. -/
def menu_entry_free_actions : List ObAction → List Event → List Event
  | [], tr => tr
  | a :: rest, tr => menu_entry_free_actions rest (tr ++ [Event.action_free a])

/-- The function `menu_entry_free`: nothing on `NULL`; for a Normal entry
free every action in list order; then release the record. -/
def menu_entry_free (self : Option ObMenuEntry) (tr : List Event) : List Event :=
  match self with
  | none => tr
  | some e =>
    let tr1 :=
      match e.type with
      | .OB_MENU_ENTRY_TYPE_NORMAL => menu_entry_free_actions e.data.normal.actions tr
      | .OB_MENU_ENTRY_TYPE_SUBMENU => tr
      | .OB_MENU_ENTRY_TYPE_SEPARATOR => tr
    tr1 ++ [Event.entry_free e]

/-- The `while (self->entries)` loop of `menu_clear_entries_internal`: free
the head entry, drop the head link, until the list is empty.  Returns the
remaining list and the trace. -/
def menu_clear_entries_loop : List ObMenuEntry → List Event → List ObMenuEntry × List Event
  | [], tr => ([], tr)
  | e :: rest, tr => menu_clear_entries_loop rest (menu_entry_free (some e) tr)

/-- The function `menu_clear_entries_internal`, on the record `self`. -/
def menu_clear_entries_internal (self : ObMenu) (tr : List Event) : ObMenu × List Event :=
  let r := menu_clear_entries_loop self.entries tr
  ({ self with entries := r.1 }, r.2)

/-! ## Registry operations -/

/-- The function `menu_destroy_hash_value`, the value destructor of
`menu_hash`: run the destroy callback if one is installed, then clear the
entries (then free name and title). -/
def menu_destroy_hash_value (self : ObMenu) (tr : List Event) : List Event :=
  let tr1 :=
    match self.destroy_func with
    | some fn => tr ++ [Event.destroy_func fn self.addr self.data]
    | none => tr
  (menu_clear_entries_internal self tr1).2

/-- GLib `g_hash_table_remove` on `menu_hash`: drop the key and hand the
removed value to the value destructor registered by `menu_startup`. -/
def g_hash_table_remove (h : Option Table) (key : String) (tr : List Event) :
    Option Table × List Event :=
  match h with
  | none => (none, tr)
  | some t =>
    match t.lookup key with
    | none => (some t, tr)
    | some v => (some (t.remove key), menu_destroy_hash_value v tr)

/-- GLib `g_hash_table_destroy` on `menu_hash`: hand every value, in
iteration order, to the value destructor registered by `menu_startup`. -/
def g_hash_table_destroy (h : Option Table) (tr : List Event) : List Event :=
  match h with
  | none => tr
  | some t => t.foldl (fun acc kv => menu_destroy_hash_value kv.2 acc) tr

/-- The function `menu_startup`: a fresh empty table whose value destructor
is `menu_destroy_hash_value`. -/
def menu_startup (s : State) : State :=
  { s with menu_hash := some [] }

/-- The function `menu_shutdown`. -/
def menu_shutdown (s : State) : State :=
  let tr := s.trace ++ [Event.menu_frame_hide_all]
  let tr1 := g_hash_table_destroy s.menu_hash tr
  { s with menu_hash := none, trace := tr1 }

/-- The function `menu_new`; the Boolean is the returned `gboolean`. -/
def menu_new (name : String) (title : Option String) (data : gpointer) (s : State) :
    Bool × State :=
  if (g_hash_table_lookup s.menu_hash name).isSome then (false, s)
  else
    let self : ObMenu :=
      { addr := s.next_addr, name := name, title := g_strdup title, data := data,
        entries := [], update_func := none, execute_func := none, destroy_func := none }
    (true, { s with menu_hash := g_hash_table_insert s.menu_hash self.name self,
                    next_addr := s.next_addr + 1 })

/-- The function `menu_free`. -/
def menu_free (name : String) (s : State) : State :=
  match menu_from_name name s with
  | (none, s1) => s1
  | (some self, s1) =>
    let r := g_hash_table_remove s1.menu_hash self.name s1.trace
    { s1 with menu_hash := r.1, trace := r.2 }

/-- The function `menu_show`. -/
def menu_show (name : String) (x y : Int) (client : gpointer) (s : State) : State :=
  match menu_from_name name s with
  | (none, s1) => s1
  | (some self, s1) =>
    { s1 with trace := s1.trace ++ [Event.menu_frame_new self.addr client,
                                    Event.menu_frame_move x y, Event.menu_frame_show] }

/-- The function `menu_clear_entries`. -/
def menu_clear_entries (name : String) (s : State) : State :=
  match menu_from_name name s with
  | (none, s1) => s1
  | (some self, s1) =>
    let r := menu_clear_entries_internal self s1.trace
    { s1 with menu_hash := store s1.menu_hash name r.1, trace := r.2 }

/-- The function `menu_add_normal`. -/
def menu_add_normal (name : String) (id : Int) (label : Option String)
    (actions : List ObAction) (s : State) : State :=
  match menu_from_name name s with
  | (none, s1) => s1
  | (some self, s1) =>
    let e := menu_entry_new self .OB_MENU_ENTRY_TYPE_NORMAL id
    let e := { e with data.normal.label := g_strdup label }
    let e := { e with data.normal.actions := actions }
    let self1 := { self with entries := g_list_append self.entries e }
    { s1 with menu_hash := store s1.menu_hash name self1 }

/-- The function `menu_add_submenu`. -/
def menu_add_submenu (name : String) (id : Int) (submenu : String) (s : State) : State :=
  match menu_from_name name s with
  | (none, s1) => s1
  | (some self, s1) =>
    match menu_from_name submenu s1 with
    | (none, s2) => s2
    | (some sub, s2) =>
      let e := menu_entry_new self .OB_MENU_ENTRY_TYPE_SUBMENU id
      let e := { e with data.submenu.submenu := some sub.addr }
      let self1 := { self with entries := g_list_append self.entries e }
      { s2 with menu_hash := store s2.menu_hash name self1 }

/-- The function `menu_add_separator`. -/
def menu_add_separator (name : String) (id : Int) (s : State) : State :=
  match menu_from_name name s with
  | (none, s1) => s1
  | (some self, s1) =>
    let e := menu_entry_new self .OB_MENU_ENTRY_TYPE_SEPARATOR id
    let self1 := { self with entries := g_list_append self.entries e }
    { s1 with menu_hash := store s1.menu_hash name self1 }

/-- The function `menu_set_update_func`. -/
def menu_set_update_func (name : String) (func : gpointer) (s : State) : State :=
  match menu_from_name name s with
  | (none, s1) => s1
  | (some self, s1) =>
    { s1 with menu_hash := store s1.menu_hash name { self with update_func := func } }

/-- The function `menu_set_execute_func`. -/
def menu_set_execute_func (name : String) (func : gpointer) (s : State) : State :=
  match menu_from_name name s with
  | (none, s1) => s1
  | (some self, s1) =>
    { s1 with menu_hash := store s1.menu_hash name { self with execute_func := func } }

/-- The function `menu_set_destroy_func`. -/
def menu_set_destroy_func (name : String) (func : gpointer) (s : State) : State :=
  match menu_from_name name s with
  | (none, s1) => s1
  | (some self, s1) =>
    { s1 with menu_hash := store s1.menu_hash name { self with destroy_func := func } }

/-- The loop of `menu_find_entry_id`: the first entry, from the head, whose
id is the one asked for. -/
def menu_find_entry_id_loop : List ObMenuEntry → Int → Option ObMenuEntry
  | [], _ => none
  | e :: it, id => if e.id = id then some e else menu_find_entry_id_loop it id

/-- The function `menu_find_entry_id`. -/
def menu_find_entry_id (self : ObMenu) (id : Int) : Option ObMenuEntry :=
  menu_find_entry_id_loop self.entries id

/-! ## The document-driven builder -/

/-- A node of the parsed document (`xmlNodePtr`): element name, attributes,
and the chain of children (`xmlChildrenNode`, linked by `next`) as a list. -/
inductive XmlNode where
  | mk (name : String) (attrs : List (String × String)) (xmlChildrenNode : List XmlNode)

/-- The element name `node->name`. -/
def XmlNode.name : XmlNode → String
  | .mk name _ _ => name

/-- The attributes of a node. -/
def XmlNode.attrs : XmlNode → List (String × String)
  | .mk _ attrs _ => attrs

/-- The children `node->xmlChildrenNode`, in document order. -/
def XmlNode.children : XmlNode → List XmlNode
  | .mk _ _ children => children

/-- The builder state `ObMenuParseState`: the stack of open menu names, top
first. -/
structure ObMenuParseState where
  menus : List String
  deriving DecidableEq, Repr

/-- The collaborators of the builder that live outside `menu.c`: the action
model (`action_parse`) and the extension loader (`plugin_open`,
`plugin_start`; starting a plugin may change the program state, typically by
registering a menu). -/
structure Env where
  action_parse : XmlNode → ObAction
  plugin_open : String → Bool
  plugin_start : String → State → State

/-- The value of attribute `name` in an attribute list, if present. -/
def attr_lookup : List (String × String) → String → Option String
  | [], _ => none
  | (k, v) :: rest, name => if k = name then some v else attr_lookup rest name

/-- Modelled from the spec: `parser/parse.c` is not among the sources.
`parse_attr_string(name, node, &value)`: the value of the attribute `name` of
the node, `none` (FALSE) when the node does not carry it. -/
def parse_attr_string (name : String) (node : XmlNode) : Option String :=
  attr_lookup node.attrs name

/-- The libxml2 function `xmlStrcasecmp`, as far as `menu.c` uses it: `0`
exactly when the two strings are equal up to ASCII letter case. -/
def xmlStrcasecmp (a b : String) : Int :=
  if a.toList.map Char.toLower = b.toList.map Char.toLower then 0 else 1

/-- The `for` loop of `parse_menu_item` over the children of the item node:
append one parsed action for every child named "action". -/
def parse_menu_item_loop (env : Env) : List XmlNode → List ObAction → List ObAction
  | [], acts => acts
  | node :: next, acts =>
    if xmlStrcasecmp node.name "action" = 0 then
      parse_menu_item_loop env next (g_list_append acts (env.action_parse node))
    else parse_menu_item_loop env next acts

/-- The function `parse_menu_item`. -/
def parse_menu_item (env : Env) (node : XmlNode) (state : ObMenuParseState) (s : State) :
    ObMenuParseState × State :=
  match state.menus with
  | [] => (state, s)
  | top :: _ =>
    match parse_attr_string "label" node with
    | none => (state, s)
    | some label =>
      let acts := parse_menu_item_loop env node.children []
      (state, menu_add_normal top 0 (some label) acts s)

/-- The function `parse_menu_separator`. -/
def parse_menu_separator (state : ObMenuParseState) (s : State) : ObMenuParseState × State :=
  match state.menus with
  | [] => (state, s)
  | top :: _ => (state, menu_add_separator top 0 s)

/-- The function `menu_open_plugin`; the Boolean is the returned `gboolean`. -/
def menu_open_plugin (env : Env) (name plugin : String) (s : State) : Bool × State :=
  if env.plugin_open plugin then
    let s1 := env.plugin_start plugin s
    if (g_hash_table_lookup s1.menu_hash name).isSome then (true, s1)
    else (false, { s1 with trace := s1.trace ++ [Event.warn_plugin plugin name] })
  else (false, s)

mutual
/-- The function `parse_menu`.  The inner `Option` is `none` where the C code
jumps to `parse_menu_fail`, past the submenu link. -/
def parse_menu (env : Env) : XmlNode → ObMenuParseState → State → ObMenuParseState × State
  | .mk nm attrs children, state, s =>
    match parse_attr_string "id" (.mk nm attrs children) with
    | none => (state, s)
    | some name =>
      let r : Option (ObMenuParseState × State) :=
        if (g_hash_table_lookup s.menu_hash name).isNone then
          match parse_attr_string "plugin" (.mk nm attrs children) with
          | some plugin => some (state, (menu_open_plugin env name plugin s).2)
          | none =>
            match parse_attr_string "label" (.mk nm attrs children) with
            | none => none
            | some title =>
              match menu_new name (some title) none s with
              | (true, s1) =>
                let state1 := { state with menus := g_slist_prepend state.menus name }
                let r1 := parse_tree env children state1 s1
                some ({ r1.1 with menus := g_slist_delete_link_head r1.1.menus }, r1.2)
              | (false, s1) => some (state, s1)
        else some (state, s)
      match r with
      | none => (state, s)
      | some (state2, s2) =>
        match state2.menus with
        | [] => (state2, s2)
        | top :: _ => (state2, menu_add_submenu top 0 name s2)
/-- Modelled from the spec: `parser/parse.c` is not among the sources.
`parse_tree(i, doc, node)` with the three callbacks `menu_parse` registers:
walk the sibling chain in document order and hand every node named "menu",
"item" or "separator" to its callback; other nodes are passed over. -/
def parse_tree (env : Env) : List XmlNode → ObMenuParseState → State → ObMenuParseState × State
  | [], state, s => (state, s)
  | node :: next, state, s =>
    let r :=
      if node.name = "menu" then parse_menu env node state s
      else if node.name = "item" then parse_menu_item env node state s
      else if node.name = "separator" then parse_menu_separator state s
      else (state, s)
    parse_tree env next r.1 r.2
end

/-! ## The example document of the specification -/

/-- The action child of the example item. -/
def example_action : XmlNode := .mk "action" [("name", "Execute")] []

/-- The example document: menu "root" holding an item, a separator and the
empty menu "sub". -/
def example_doc : XmlNode :=
  .mk "menu" [("id", "root"), ("label", "Root")]
    [ .mk "item" [("label", "Open")] [example_action],
      .mk "separator" [] [],
      .mk "menu" [("id", "sub"), ("label", "Sub")] [] ]

/-- The menu "root" the example document builds, at address `a`, with `sub`
at the next address and `act` the handle of the parsed action. -/
def example_root (a : MenuPtr) (act : ObAction) : ObMenu :=
  { addr := a, name := "root", title := some "Root", data := none,
    entries :=
      [ { type := .OB_MENU_ENTRY_TYPE_NORMAL, menu := a, id := 0,
          data := { normal := { label := some "Open", enabled := true, actions := [act] },
                    submenu := { submenu := none } } },
        { type := .OB_MENU_ENTRY_TYPE_SEPARATOR, menu := a, id := 0,
          data := { normal := { label := none, enabled := false, actions := [] },
                    submenu := { submenu := none } } },
        { type := .OB_MENU_ENTRY_TYPE_SUBMENU, menu := a, id := 0,
          data := { normal := { label := none, enabled := false, actions := [] },
                    submenu := { submenu := some (a + 1) } } } ],
    update_func := none, execute_func := none, destroy_func := none }

/-- The menu "sub" the example document builds, at address `a`. -/
def example_sub (a : MenuPtr) : ObMenu :=
  { addr := a, name := "sub", title := some "Sub", data := none, entries := [],
    update_func := none, execute_func := none, destroy_func := none }

/-- A small registry used to instantiate the theorems below: the two menus of
the example document. -/
def demo_state : State :=
  { menu_hash := some [("root", example_root 0 7), ("sub", example_sub 1)],
    next_addr := 2, trace := [] }

/-- A registry of two menus, each with a destroy callback and one Separator
entry, used to observe the order of calls made by `menu_shutdown`. -/
def shutdown_state : State :=
  { menu_hash := some
      [ ("a", { addr := 0, name := "a", title := some "A", data := some 10,
                entries := [{ type := .OB_MENU_ENTRY_TYPE_SEPARATOR, menu := 0, id := 1,
                              data := { normal := { label := none, enabled := false,
                                                    actions := [] },
                                        submenu := { submenu := none } } }],
                update_func := none, execute_func := none, destroy_func := some 50 }),
        ("b", { addr := 1, name := "b", title := some "B", data := some 20,
                entries := [{ type := .OB_MENU_ENTRY_TYPE_SEPARATOR, menu := 1, id := 2,
                              data := { normal := { label := none, enabled := false,
                                                    actions := [] },
                                        submenu := { submenu := none } } }],
                update_func := none, execute_func := none, destroy_func := some 60 }) ],
    next_addr := 2, trace := [] }

/-- The registry `shutdown_state` with the table iterated in the other
order. -/
def shutdown_state_rev : State :=
  { shutdown_state with menu_hash := shutdown_state.menu_hash.map List.reverse }

/-- The state after the warning `menu_from_name` issues for an unknown name:
only the trace has grown, by that warning. -/
def warned (name : String) (s : State) : State :=
  { s with trace := s.trace ++ [Event.warn_no_menu name] }

/-- Collaborators used to instantiate the theorems below: every action
parses to the handle 7 and no plugin can be opened. -/
def demo_env : Env :=
  { action_parse := fun _ => 7, plugin_open := fun _ => false, plugin_start := fun _ s => s }

/-- A menu node with an id that is not registered in `demo_state`, without
label and without plugin. -/
def unlabelled_node : XmlNode := .mk "menu" [("id", "x")] [.mk "separator" [] []]

/-- A menu node that names the menu "root" again, with another label and a
child. -/
def root_again_node : XmlNode :=
  .mk "menu" [("id", "root"), ("label", "Other")] [.mk "separator" [] []]

/-- An item node whose only child is named "ACTION", in capitals. -/
def capital_action_item : XmlNode :=
  .mk "item" [("label", "Run")] [.mk "ACTION" [("name", "Execute")] []]

/-- The plugins of `env` leave every registered menu as it is (they may
register further menus). -/
def plugins_keep_menus (env : Env) : Prop :=
  ∀ (plugin : String) (s : State) (key : String) (m : ObMenu),
    g_hash_table_lookup s.menu_hash key = some m →
      g_hash_table_lookup (env.plugin_start plugin s).menu_hash key = some m

/-- Every menu registered in `s` under a name other than `top` is registered
in `s1` under the same name, unchanged. -/
def others_kept (top : String) (s s1 : State) : Prop :=
  ∀ (key : String) (m : ObMenu), key ≠ top →
    g_hash_table_lookup s.menu_hash key = some m →
      g_hash_table_lookup s1.menu_hash key = some m

/-- Every menu registered in `s` is registered in `s1` under the same name,
as a record at the same address (its fields may have changed). -/
def addrs_kept (s s1 : State) : Prop :=
  ∀ (key : String) (m : ObMenu), g_hash_table_lookup s.menu_hash key = some m →
    ∃ m1, g_hash_table_lookup s1.menu_hash key = some m1 ∧ m1.addr = m.addr

/-! ## Sequences of registry calls -/

/-- One call of the registry interface of `menu.c`, with its arguments. -/
inductive RegistryCall where
  | menu_new (name : String) (title : Option String) (data : gpointer)
  | menu_free (name : String)
  | menu_clear_entries (name : String)
  | menu_add_normal (name : String) (id : Int) (label : Option String)
      (actions : List ObAction)
  | menu_add_submenu (name : String) (id : Int) (submenu : String)
  | menu_add_separator (name : String) (id : Int)
  | menu_set_update_func (name : String) (func : gpointer)
  | menu_set_execute_func (name : String) (func : gpointer)
  | menu_set_destroy_func (name : String) (func : gpointer)
  deriving DecidableEq, Repr

/-- The program state after one registry call. -/
def RegistryCall.run : RegistryCall → State → State
  | .menu_new name title data, s => (Openbox.menu_new name title data s).2
  | .menu_free name, s => Openbox.menu_free name s
  | .menu_clear_entries name, s => Openbox.menu_clear_entries name s
  | .menu_add_normal name id label actions, s => Openbox.menu_add_normal name id label actions s
  | .menu_add_submenu name id submenu, s => Openbox.menu_add_submenu name id submenu s
  | .menu_add_separator name id, s => Openbox.menu_add_separator name id s
  | .menu_set_update_func name func, s => Openbox.menu_set_update_func name func s
  | .menu_set_execute_func name func, s => Openbox.menu_set_execute_func name func s
  | .menu_set_destroy_func name func, s => Openbox.menu_set_destroy_func name func s

/-- The program state after a sequence of registry calls, first call first. -/
def run_calls : List RegistryCall → State → State
  | [], s => s
  | c :: cs, s => run_calls cs (c.run s)

/-- Well-formedness of a table whose records were allocated below `bound`:
each key and each record address occurs once, every record is stored under
its own name, and every entry of a record points back at that record. -/
def Table.well_formed (t : Table) (bound : Nat) : Prop :=
  (t.map Prod.fst).Nodup ∧ (t.map (fun kv => kv.2.addr)).Nodup ∧
  ∀ kv ∈ t, kv.2.name = kv.1 ∧ kv.2.addr < bound ∧ ∀ e ∈ kv.2.entries, e.menu = kv.2.addr

/-- Well-formedness of the registry: the table exists and is well formed for
the current allocator. -/
def registry_well_formed (s : State) : Prop :=
  ∃ t, s.menu_hash = some t ∧ t.well_formed s.next_addr

/-! ## Reading the trace -/

/-- Every destroy-callback invocation of the trace happens before any entry
record is released: nothing that follows an entry release is a destroy
call. -/
def destroy_calls_before_entry_frees (tr : List Event) : Prop :=
  ∀ before after e, tr = before ++ Event.entry_free e :: after →
    ∀ fn m d, Event.destroy_func fn m d ∉ after


/-- The actions handed to `action_free`, in call order. -/
def action_frees (tr : List Event) : List ObAction :=
  tr.filterMap (fun ev => match ev with
    | Event.action_free a => some a
    | _ => none)

/-- The entry records released by `menu_entry_free`, in call order. -/
def entry_frees (tr : List Event) : List ObMenuEntry :=
  tr.filterMap (fun ev => match ev with
    | Event.entry_free e => some e
    | _ => none)

/-- The destroy-callback invocations, in call order: callback, menu, owner
data. -/
def destroy_calls (tr : List Event) : List (Nat × MenuPtr × gpointer) :=
  tr.filterMap (fun ev => match ev with
    | Event.destroy_func fn m d => some (fn, m, d)
    | _ => none)

/-- What destroying one entry does, in the words of the specification: for a
Normal entry every attached action is freed, in order; a Submenu or Separator
entry has no payload to release; the entry record is always freed. -/
def entry_events (e : ObMenuEntry) : List Event :=
  (match e.type with
   | .OB_MENU_ENTRY_TYPE_NORMAL => e.data.normal.actions.map Event.action_free
   | .OB_MENU_ENTRY_TYPE_SUBMENU => []
   | .OB_MENU_ENTRY_TYPE_SEPARATOR => []) ++ [Event.entry_free e]

/-- What tearing down one menu does, in the words of the specification: the
owner destroy callback first (when one is installed), then every entry. -/
def teardown_events (self : ObMenu) : List Event :=
  (match self.destroy_func with
   | some fn => [Event.destroy_func fn self.addr self.data]
   | none => []) ++ self.entries.flatMap entry_events

/-! ## Theorems -/

/-! ### The table -/

theorem Table.lookup_write_self (t : Table) (k : String) (m : ObMenu) :
    (Table.write t k m).lookup k = if (t.lookup k).isSome then some m else none := by
  induction t with
  | nil => simp [Table.write, Table.lookup]
  | cons kv rest ih =>
    obtain ⟨k0, v0⟩ := kv
    by_cases h : k0 = k
    · simp [Table.write, Table.lookup, h]
    · simp [Table.write, Table.lookup, h, ih]

theorem Table.lookup_write_of_ne (t : Table) (k k1 : String) (m : ObMenu) (h : k1 ≠ k) :
    (Table.write t k m).lookup k1 = t.lookup k1 := by
  induction t with
  | nil => simp [Table.write, Table.lookup]
  | cons kv rest ih =>
    obtain ⟨k0, v0⟩ := kv
    by_cases h0 : k0 = k
    · subst h0
      have : ¬ k0 = k1 := fun e => h e.symm
      simp [Table.write, Table.lookup, this]
    · by_cases h1 : k0 = k1
      · subst h1
        simp [Table.write, Table.lookup, h0]
      · simp [Table.write, Table.lookup, h0, h1, ih]

theorem Table.keys_write (t : Table) (k : String) (m : ObMenu) :
    (Table.write t k m).map Prod.fst = t.map Prod.fst := by
  induction t with
  | nil => simp [Table.write]
  | cons kv rest ih =>
    obtain ⟨k0, v0⟩ := kv
    by_cases h0 : k0 = k
    · simp [Table.write, h0]
    · simp [Table.write, h0, ih]

theorem Table.lookup_eq_none_iff (t : Table) (k : String) :
    t.lookup k = none ↔ k ∉ t.map Prod.fst := by
  induction t with
  | nil => simp [Table.lookup]
  | cons kv rest ih =>
    obtain ⟨k0, v0⟩ := kv
    by_cases h0 : k0 = k
    · simp [Table.lookup, h0]
    · have h1 : ¬ k = k0 := fun e => h0 e.symm
      simp [Table.lookup, h0, h1, ih]

theorem Table.lookup_append_of_none (t : Table) (k k1 : String) (v : ObMenu)
    (h : t.lookup k1 = none) :
    (t ++ [(k, v)]).lookup k1 = if k = k1 then some v else none := by
  induction t with
  | nil => simp [Table.lookup]
  | cons kv rest ih =>
    obtain ⟨k0, v0⟩ := kv
    by_cases h0 : k0 = k1
    · simp [Table.lookup, h0] at h
    · simp only [Table.lookup, h0, if_false] at h
      simp [Table.lookup, h0, ih h]

theorem Table.lookup_append_of_some (t : Table) (k k1 : String) (v m : ObMenu)
    (h : t.lookup k1 = some m) :
    (t ++ [(k, v)]).lookup k1 = some m := by
  induction t with
  | nil => simp [Table.lookup] at h
  | cons kv rest ih =>
    obtain ⟨k0, v0⟩ := kv
    by_cases h0 : k0 = k1
    · simp only [Table.lookup, h0, if_true] at h
      simp [Table.lookup, h0, h]
    · simp only [Table.lookup, h0, if_false] at h
      simp [Table.lookup, h0, ih h]

theorem Table.lookup_remove_self (t : Table) (k : String) :
    (t.remove k).lookup k = none := by
  rw [Table.lookup_eq_none_iff]
  simp [Table.remove, List.mem_filter]

theorem Table.lookup_remove_of_ne (t : Table) (k k1 : String) (h : k1 ≠ k) :
    (t.remove k).lookup k1 = t.lookup k1 := by
  induction t with
  | nil => simp [Table.remove, Table.lookup]
  | cons kv rest ih =>
    obtain ⟨k0, v0⟩ := kv
    by_cases h0 : k0 = k
    · subst h0
      have h2 : ¬ k0 = k1 := fun e => h e.symm
      have : Table.remove ((k0, v0) :: rest) k0 = Table.remove rest k0 := by
        simp [Table.remove]
      rw [this, ih]
      simp [Table.lookup, h2]
    · have : Table.remove ((k0, v0) :: rest) k = (k0, v0) :: Table.remove rest k := by
        simp [Table.remove, h0]
      rw [this]
      by_cases h1 : k0 = k1
      · simp [Table.lookup, h1]
      · simp [Table.lookup, h1, ih]

/-! ### Teardown of entries and menus -/

theorem menu_entry_free_actions_eq (l : List ObAction) (tr : List Event) :
    menu_entry_free_actions l tr = tr ++ l.map Event.action_free := by
  induction l generalizing tr with
  | nil => simp [menu_entry_free_actions]
  | cons a rest ih => simp [menu_entry_free_actions, ih]

theorem menu_entry_free_some (e : ObMenuEntry) (tr : List Event) :
    menu_entry_free (some e) tr = tr ++ entry_events e := by
  cases ht : e.type <;>
    simp [menu_entry_free, entry_events, ht, menu_entry_free_actions_eq]

theorem menu_clear_entries_loop_eq (l : List ObMenuEntry) (tr : List Event) :
    menu_clear_entries_loop l tr = ([], tr ++ l.flatMap entry_events) := by
  induction l generalizing tr with
  | nil => simp [menu_clear_entries_loop]
  | cons e rest ih =>
    simp [menu_clear_entries_loop, ih, menu_entry_free_some]

theorem menu_destroy_hash_value_eq (self : ObMenu) (tr : List Event) :
    menu_destroy_hash_value self tr = tr ++ teardown_events self := by
  cases hd : self.destroy_func <;>
    simp [menu_destroy_hash_value, teardown_events, menu_clear_entries_internal,
      menu_clear_entries_loop_eq, hd]

theorem action_frees_entry_events (e : ObMenuEntry) :
    action_frees (entry_events e) =
      if e.type = .OB_MENU_ENTRY_TYPE_NORMAL then e.data.normal.actions else [] := by
  have hmap : ∀ l : List ObAction, action_frees (l.map Event.action_free) = l := by
    intro l
    induction l with
    | nil => rfl
    | cons a rest ih =>
      simp only [action_frees] at ih
      simp [action_frees, ih]
  cases ht : e.type <;>
    simp [entry_events, ht, action_frees, List.filterMap_append]
  simpa [action_frees] using hmap e.data.normal.actions

theorem entry_frees_entry_events (e : ObMenuEntry) :
    entry_frees (entry_events e) = [e] := by
  cases ht : e.type <;>
    simp [entry_events, ht, entry_frees, List.filterMap_append]

theorem entry_frees_flatMap (l : List ObMenuEntry) :
    entry_frees (l.flatMap entry_events) = l := by
  induction l with
  | nil => rfl
  | cons e rest ih =>
    have h := entry_frees_entry_events e
    simp only [entry_frees] at h ih
    simp [entry_frees, List.filterMap_append, h, ih]

theorem action_frees_flatMap (l : List ObMenuEntry) :
    action_frees (l.flatMap entry_events) =
      (l.filter (fun e => decide (e.type = .OB_MENU_ENTRY_TYPE_NORMAL))).flatMap
        (fun e => e.data.normal.actions) := by
  induction l with
  | nil => rfl
  | cons e rest ih =>
    have h := action_frees_entry_events e
    simp only [action_frees] at h ih
    by_cases ht : e.type = .OB_MENU_ENTRY_TYPE_NORMAL
    · simp [action_frees, List.filterMap_append, h, ih, ht]
    · simp [action_frees, List.filterMap_append, h, ih, ht]


/-- C1: from a freshly started (empty) registry and an empty open-menu stack,
the example document yields exactly the two menus "root" and "sub"; "root"
holds, in this order, the Normal entry "Open" with the one parsed action, a
Separator entry and a Submenu entry pointing at the record of "sub"; "sub"
has no entries.  The stack is empty again and nothing is reported. -/
theorem example_doc_builds_root_and_sub (env : Env) (s0 : State) :
    parse_tree env [example_doc] { menus := [] } (menu_startup s0) =
      ({ menus := [] },
       { menu_hash := some [("root", example_root s0.next_addr (env.action_parse example_action)),
                            ("sub", example_sub (s0.next_addr + 1))],
         next_addr := s0.next_addr + 2,
         trace := s0.trace }) ∧
    parse_menu env example_doc { menus := [] } (menu_startup s0) =
      parse_tree env [example_doc] { menus := [] } (menu_startup s0) :=
  ⟨rfl, rfl⟩

/-! ### Creating menus -/

theorem menu_new_of_registered (name : String) (title : Option String) (data : gpointer)
    (s : State) (m : ObMenu) (h : g_hash_table_lookup s.menu_hash name = some m) :
    menu_new name title data s = (false, s) := by
  simp [menu_new, h]

theorem menu_new_of_fresh (name : String) (title : Option String) (data : gpointer)
    (s : State) (t : Table) (hinit : s.menu_hash = some t) (h : t.lookup name = none) :
    menu_new name title data s =
      (true, { s with
        menu_hash := some (t ++ [(name,
          { addr := s.next_addr, name := name, title := title, data := data, entries := [],
            update_func := none, execute_func := none, destroy_func := none })]),
        next_addr := s.next_addr + 1 }) := by
  simp [menu_new, g_hash_table_lookup, g_hash_table_insert, g_strdup, hinit, h]

/-- C2: in a started registry (whose table, like every hash table, holds
each key once), `menu_new name t1 d1` followed by `menu_new name t2 d2`:
the second call returns FALSE, leaves the whole state exactly as the first
call left it, and the name is then registered exactly once. -/
theorem menu_new_twice (s : State) (t : Table) (name : String) (t1 t2 : Option String)
    (d1 d2 : gpointer) (hinit : s.menu_hash = some t) (hkeys : (t.map Prod.fst).Nodup) :
    (menu_new name t2 d2 (menu_new name t1 d1 s).2).1 = false ∧
    (menu_new name t2 d2 (menu_new name t1 d1 s).2).2 = (menu_new name t1 d1 s).2 ∧
    ∃ tbl, (menu_new name t2 d2 (menu_new name t1 d1 s).2).2.menu_hash = some tbl ∧
      (tbl.map Prod.fst).count name = 1 := by
  cases hl : t.lookup name with
  | none =>
    have h1 := menu_new_of_fresh name t1 d1 s t hinit hl
    have hfound := Table.lookup_append_of_none t name name
      { addr := s.next_addr, name := name, title := t1, data := d1, entries := [],
        update_func := none, execute_func := none, destroy_func := none } hl
    rw [h1]
    simp only [if_true] at hfound
    have h2 := menu_new_of_registered name t2 d2
      { s with
        menu_hash := some (t ++ [(name,
          { addr := s.next_addr, name := name, title := t1, data := d1, entries := [],
            update_func := none, execute_func := none, destroy_func := none })]),
        next_addr := s.next_addr + 1 } _ hfound
    rw [h2]
    refine ⟨rfl, rfl, _, rfl, ?_⟩
    have hnot : name ∉ t.map Prod.fst := (Table.lookup_eq_none_iff t name).1 hl
    have hc : List.count name (t.map Prod.fst) = 0 := List.count_eq_zero.2 hnot
    simp only [List.map_append, List.count_append, hc]
    simp
  | some m =>
    have hreg : g_hash_table_lookup s.menu_hash name = some m := by
      simp [g_hash_table_lookup, hinit, hl]
    have h1 := menu_new_of_registered name t1 d1 s m hreg
    rw [h1]
    have h2 := menu_new_of_registered name t2 d2 s m hreg
    rw [h2]
    refine ⟨rfl, rfl, t, hinit, ?_⟩
    have hmem : name ∈ t.map Prod.fst := by
      by_contra hc
      have := (Table.lookup_eq_none_iff t name).2 hc
      rw [hl] at this
      exact absurd this (by simp)
    exact List.count_eq_one_of_mem hkeys hmem

/-- C2 at the example registry, for the new name "apps". -/
theorem menu_new_twice_witness :
    demo_state.menu_hash = some [("root", example_root 0 7), ("sub", example_sub 1)] ∧
    (menu_new "apps" (some "B") (some 2) (menu_new "apps" (some "A") (some 1) demo_state).2).1
      = false ∧
    (menu_new "apps" (some "B") (some 2) (menu_new "apps" (some "A") (some 1) demo_state).2).2
      = (menu_new "apps" (some "A") (some 1) demo_state).2 :=
  ⟨rfl,
   (menu_new_twice demo_state _ "apps" (some "A") (some "B") (some 1) (some 2) rfl
      (by decide)).1,
   (menu_new_twice demo_state _ "apps" (some "A") (some "B") (some 1) (some 2) rfl
      (by decide)).2.1⟩

/-- C9: in a started registry, `menu_new` on an unregistered name returns
TRUE; the name then maps to a fresh record with that name, that title, that
owner data, no entries and no callbacks; every menu registered before is
still registered, unchanged, and no other name has appeared. -/
theorem menu_new_fresh_spec (s : State) (t : Table) (name : String) (title : Option String)
    (data : gpointer) (hinit : s.menu_hash = some t)
    (hnew : g_hash_table_lookup s.menu_hash name = none) :
    (menu_new name title data s).1 = true ∧
    g_hash_table_lookup (menu_new name title data s).2.menu_hash name =
      some { addr := s.next_addr, name := name, title := title, data := data, entries := [],
             update_func := none, execute_func := none, destroy_func := none } ∧
    (∀ other, other ≠ name →
      g_hash_table_lookup (menu_new name title data s).2.menu_hash other =
        g_hash_table_lookup s.menu_hash other) ∧
    (menu_new name title data s).2.trace = s.trace := by
  have hl : t.lookup name = none := by
    simpa [g_hash_table_lookup, hinit] using hnew
  rw [menu_new_of_fresh name title data s t hinit hl]
  refine ⟨rfl, ?_, ?_, rfl⟩
  · simp [g_hash_table_lookup, Table.lookup_append_of_none t name name _ hl]
  · intro other hne
    simp only [g_hash_table_lookup, hinit]
    cases ho : t.lookup other with
    | none =>
      rw [Table.lookup_append_of_none t name other _ ho]
      have hne2 : ¬ name = other := fun e => hne e.symm
      simp [hne2]
    | some m => rw [Table.lookup_append_of_some t name other _ m ho]

/-- C9 at the example registry, for the new name "apps". -/
theorem menu_new_fresh_spec_witness :
    g_hash_table_lookup demo_state.menu_hash "apps" = none ∧
    (menu_new "apps" (some "Apps") (some 5) demo_state).1 = true :=
  ⟨rfl, (menu_new_fresh_spec demo_state _ "apps" (some "Apps") (some 5) rfl rfl).1⟩

/-! ### Lookup and write-back -/

theorem menu_from_name_of_registered (name : String) (s : State) (self : ObMenu)
    (h : g_hash_table_lookup s.menu_hash name = some self) :
    menu_from_name name s = (some self, s) := by
  simp [menu_from_name, h]

theorem menu_from_name_of_unregistered (name : String) (s : State)
    (h : g_hash_table_lookup s.menu_hash name = none) :
    menu_from_name name s = (none, { s with trace := s.trace ++ [Event.warn_no_menu name] }) := by
  simp [menu_from_name, h]

theorem lookup_store_self (h : Option Table) (name : String) (self m : ObMenu)
    (hl : g_hash_table_lookup h name = some self) :
    g_hash_table_lookup (store h name m) name = some m := by
  cases h with
  | none => simp [g_hash_table_lookup] at hl
  | some t =>
    simp only [g_hash_table_lookup] at hl
    simp [g_hash_table_lookup, store, Table.lookup_write_self, hl]

theorem lookup_store_of_ne (h : Option Table) (name other : String) (m : ObMenu)
    (hne : other ≠ name) :
    g_hash_table_lookup (store h name m) other = g_hash_table_lookup h other := by
  cases h with
  | none => rfl
  | some t => simp [g_hash_table_lookup, store, Table.lookup_write_of_ne t name other m hne]

/-! ### Adding entries -/

/-- C3: with `parent` registered, `menu_add_submenu parent id child` leaves
the table untouched when `child` is not registered; when `child` is
registered it appends, after the entries already there, one Submenu entry
with the given id, owned by `parent` and pointing at the record of `child`,
and changes no other menu. -/
theorem menu_add_submenu_spec (s : State) (parent child : String) (id : Int) (p : ObMenu)
    (hp : g_hash_table_lookup s.menu_hash parent = some p) :
    (g_hash_table_lookup s.menu_hash child = none →
      (menu_add_submenu parent id child s).menu_hash = s.menu_hash ∧
      g_hash_table_lookup (menu_add_submenu parent id child s).menu_hash parent = some p) ∧
    (∀ c, g_hash_table_lookup s.menu_hash child = some c →
      g_hash_table_lookup (menu_add_submenu parent id child s).menu_hash parent =
        some { p with entries := p.entries ++
          [{ type := .OB_MENU_ENTRY_TYPE_SUBMENU, menu := p.addr, id := id,
             data := { normal := { label := none, enabled := false, actions := [] },
                       submenu := { submenu := some c.addr } } }] } ∧
      (∀ other, other ≠ parent →
        g_hash_table_lookup (menu_add_submenu parent id child s).menu_hash other =
          g_hash_table_lookup s.menu_hash other)) := by
  constructor
  · intro hc
    have h2 : menu_from_name child s
        = (none, { s with trace := s.trace ++ [Event.warn_no_menu child] }) :=
      menu_from_name_of_unregistered child s hc
    have : (menu_add_submenu parent id child s).menu_hash = s.menu_hash := by
      simp [menu_add_submenu, menu_from_name_of_registered parent s p hp, h2]
    exact ⟨this, by rw [this]; exact hp⟩
  · intro c hc
    have h2 : menu_from_name child s = (some c, s) := menu_from_name_of_registered child s c hc
    have hs : (menu_add_submenu parent id child s).menu_hash =
        store s.menu_hash parent { p with entries := p.entries ++
          [{ type := .OB_MENU_ENTRY_TYPE_SUBMENU, menu := p.addr, id := id,
             data := { normal := { label := none, enabled := false, actions := [] },
                       submenu := { submenu := some c.addr } } }] } := by
      simp [menu_add_submenu, menu_from_name_of_registered parent s p hp, h2, menu_entry_new,
        g_list_append]
    rw [hs]
    exact ⟨lookup_store_self _ _ p _ hp, fun other hne => lookup_store_of_ne _ _ _ _ hne⟩

/-- C3 at the example registry: "sub" is linked once more into "root". -/
theorem menu_add_submenu_spec_witness :
    g_hash_table_lookup demo_state.menu_hash "root" = some (example_root 0 7) ∧
    g_hash_table_lookup demo_state.menu_hash "sub" = some (example_sub 1) ∧
    g_hash_table_lookup (menu_add_submenu "root" 4 "sub" demo_state).menu_hash "root" =
      some { example_root 0 7 with entries := (example_root 0 7).entries ++
        [{ type := .OB_MENU_ENTRY_TYPE_SUBMENU, menu := 0, id := 4,
           data := { normal := { label := none, enabled := false, actions := [] },
                     submenu := { submenu := some 1 } } }] } :=
  ⟨rfl, rfl,
   ((menu_add_submenu_spec demo_state "root" "sub" 4 (example_root 0 7) rfl).2
      (example_sub 1) rfl).1⟩

/-- C10: with `name` registered, `menu_add_normal` appends, after the entries
already there, one Normal entry with the given id, label and action list (in
the same order), enabled, owned by the named menu; `menu_add_separator`
appends one Separator entry with the given id, owned by the named menu.
Title, owner data and callbacks of the menu, every other menu, and the trace
are unchanged. -/
theorem menu_add_normal_separator_spec (s : State) (name : String) (id : Int)
    (label : Option String) (actions : List ObAction) (self : ObMenu)
    (h : g_hash_table_lookup s.menu_hash name = some self) :
    (g_hash_table_lookup (menu_add_normal name id label actions s).menu_hash name =
        some { self with entries := self.entries ++
          [{ type := .OB_MENU_ENTRY_TYPE_NORMAL, menu := self.addr, id := id,
             data := { normal := { label := label, enabled := true, actions := actions },
                       submenu := { submenu := none } } }] } ∧
      (∀ other, other ≠ name →
        g_hash_table_lookup (menu_add_normal name id label actions s).menu_hash other =
          g_hash_table_lookup s.menu_hash other) ∧
      (menu_add_normal name id label actions s).trace = s.trace) ∧
    (g_hash_table_lookup (menu_add_separator name id s).menu_hash name =
        some { self with entries := self.entries ++
          [{ type := .OB_MENU_ENTRY_TYPE_SEPARATOR, menu := self.addr, id := id,
             data := { normal := { label := none, enabled := false, actions := [] },
                       submenu := { submenu := none } } }] } ∧
      (∀ other, other ≠ name →
        g_hash_table_lookup (menu_add_separator name id s).menu_hash other =
          g_hash_table_lookup s.menu_hash other) ∧
      (menu_add_separator name id s).trace = s.trace) := by
  have hn : menu_add_normal name id label actions s =
      { s with menu_hash := store s.menu_hash name { self with entries := self.entries ++
          [{ type := .OB_MENU_ENTRY_TYPE_NORMAL, menu := self.addr, id := id,
             data := { normal := { label := label, enabled := true, actions := actions },
                       submenu := { submenu := none } } }] } } := by
    simp [menu_add_normal, menu_from_name_of_registered name s self h, menu_entry_new,
      g_list_append, g_strdup]
  have hsep : menu_add_separator name id s =
      { s with menu_hash := store s.menu_hash name { self with entries := self.entries ++
          [{ type := .OB_MENU_ENTRY_TYPE_SEPARATOR, menu := self.addr, id := id,
             data := { normal := { label := none, enabled := false, actions := [] },
                       submenu := { submenu := none } } }] } } := by
    simp [menu_add_separator, menu_from_name_of_registered name s self h, menu_entry_new,
      g_list_append]
  rw [hn, hsep]
  exact ⟨⟨lookup_store_self _ _ self _ h, fun other hne => lookup_store_of_ne _ _ _ _ hne, rfl⟩,
    ⟨lookup_store_self _ _ self _ h, fun other hne => lookup_store_of_ne _ _ _ _ hne, rfl⟩⟩

/-- C10 at the example registry: an item with two actions is added to "sub". -/
theorem menu_add_normal_separator_spec_witness :
    g_hash_table_lookup demo_state.menu_hash "sub" = some (example_sub 1) ∧
    g_hash_table_lookup
        (menu_add_normal "sub" 3 (some "Run") [11, 12] demo_state).menu_hash "sub" =
      some { example_sub 1 with entries :=
        [{ type := .OB_MENU_ENTRY_TYPE_NORMAL, menu := 1, id := 3,
           data := { normal := { label := some "Run", enabled := true, actions := [11, 12] },
                     submenu := { submenu := none } } }] } :=
  ⟨rfl,
   (menu_add_normal_separator_spec demo_state "sub" 3 (some "Run") [11, 12]
      (example_sub 1) rfl).1.1⟩

/-! ### Clearing and freeing -/

theorem action_frees_teardown_events (self : ObMenu) :
    action_frees (teardown_events self) =
      (self.entries.filter (fun e => decide (e.type = .OB_MENU_ENTRY_TYPE_NORMAL))).flatMap
        (fun e => e.data.normal.actions) := by
  have h := action_frees_flatMap self.entries
  simp only [action_frees] at h
  cases hd : self.destroy_func <;>
    simp [teardown_events, hd, action_frees, List.filterMap_append, h]

/-- C4: with `name` registered (under the menu's own name field, as
`menu_new` registers it), after `menu_free name` the name is no longer found,
every other name maps to what it mapped to before, and the calls made are
exactly the teardown of the freed menu, in which `action_free` receives the
actions of its Normal entries, each occurrence once, in order, and nothing
else. -/
theorem menu_free_spec (s : State) (name : String) (self : ObMenu)
    (h : g_hash_table_lookup s.menu_hash name = some self) (hname : self.name = name) :
    (menu_from_name name (menu_free name s)).1 = none ∧
    g_hash_table_lookup (menu_free name s).menu_hash name = none ∧
    (∀ other, other ≠ name →
      g_hash_table_lookup (menu_free name s).menu_hash other =
        g_hash_table_lookup s.menu_hash other) ∧
    (menu_free name s).trace = s.trace ++ teardown_events self ∧
    action_frees (teardown_events self) =
      (self.entries.filter (fun e => decide (e.type = .OB_MENU_ENTRY_TYPE_NORMAL))).flatMap
        (fun e => e.data.normal.actions) := by
  cases hs : s.menu_hash with
  | none => simp [g_hash_table_lookup, hs] at h
  | some t =>
    have hl : t.lookup name = some self := by simpa [g_hash_table_lookup, hs] using h
    have hf : menu_free name s =
        { s with menu_hash := some (t.remove name), trace := s.trace ++ teardown_events self } := by
      simp [menu_free, menu_from_name_of_registered name s self h, g_hash_table_remove, hs,
        hname, hl, menu_destroy_hash_value_eq]
    rw [hf]
    refine ⟨?_, ?_, ?_, rfl, action_frees_teardown_events self⟩
    · rw [menu_from_name_of_unregistered]
      simp [g_hash_table_lookup, Table.lookup_remove_self]
    · simp [g_hash_table_lookup, Table.lookup_remove_self]
    · intro other hne
      simp [g_hash_table_lookup, Table.lookup_remove_of_ne t name other hne]

/-- C4 at the example registry: freeing "root" hands its one action to
`action_free`. -/
theorem menu_free_spec_witness :
    g_hash_table_lookup demo_state.menu_hash "root" = some (example_root 0 7) ∧
    (example_root 0 7).name = "root" ∧
    g_hash_table_lookup (menu_free "root" demo_state).menu_hash "root" = none ∧
    action_frees (menu_free "root" demo_state).trace = [7] :=
  ⟨rfl, rfl, (menu_free_spec demo_state "root" (example_root 0 7) rfl rfl).2.1,
   by rw [(menu_free_spec demo_state "root" (example_root 0 7) rfl rfl).2.2.2.1]; rfl⟩

/-- C5: with `name` registered, `menu_clear_entries name` leaves the menu
registered with no entries and with address, name, title, owner data and the
three callbacks as before; every other menu is unchanged; the calls made are
exactly the destruction of the entries that were on the list, one
destruction per entry, in list order (so N of them for N entries). -/
theorem menu_clear_entries_spec (s : State) (name : String) (self : ObMenu)
    (h : g_hash_table_lookup s.menu_hash name = some self) :
    g_hash_table_lookup (menu_clear_entries name s).menu_hash name =
      some { self with entries := [] } ∧
    (∀ other, other ≠ name →
      g_hash_table_lookup (menu_clear_entries name s).menu_hash other =
        g_hash_table_lookup s.menu_hash other) ∧
    (menu_clear_entries name s).trace = s.trace ++ self.entries.flatMap entry_events ∧
    entry_frees (self.entries.flatMap entry_events) = self.entries ∧
    (entry_frees (self.entries.flatMap entry_events)).length = self.entries.length := by
  have hc : menu_clear_entries name s =
      { s with menu_hash := store s.menu_hash name { self with entries := [] },
               trace := s.trace ++ self.entries.flatMap entry_events } := by
    simp [menu_clear_entries, menu_from_name_of_registered name s self h,
      menu_clear_entries_internal, menu_clear_entries_loop_eq]
  rw [hc]
  refine ⟨lookup_store_self _ _ self _ h, fun other hne => lookup_store_of_ne _ _ _ _ hne, rfl,
    entry_frees_flatMap _, ?_⟩
  rw [entry_frees_flatMap]

/-- C5 at the example registry: clearing "root" destroys its three entries. -/
theorem menu_clear_entries_spec_witness :
    g_hash_table_lookup demo_state.menu_hash "root" = some (example_root 0 7) ∧
    g_hash_table_lookup (menu_clear_entries "root" demo_state).menu_hash "root" =
      some { example_root 0 7 with entries := [] } ∧
    (entry_frees ((example_root 0 7).entries.flatMap entry_events)).length = 3 :=
  ⟨rfl, (menu_clear_entries_spec demo_state "root" (example_root 0 7) rfl).1,
   (menu_clear_entries_spec demo_state "root" (example_root 0 7) rfl).2.2.2.2⟩

/-! ### Searching -/

theorem menu_find_entry_id_loop_none (l : List ObMenuEntry) (id : Int) :
    menu_find_entry_id_loop l id = none ↔ ∀ e ∈ l, e.id ≠ id := by
  induction l with
  | nil => simp [menu_find_entry_id_loop]
  | cons e rest ih =>
    by_cases he : e.id = id
    · simp [menu_find_entry_id_loop, he]
    · simp [menu_find_entry_id_loop, he, ih]

theorem menu_find_entry_id_loop_some (l : List ObMenuEntry) (id : Int) (e : ObMenuEntry) :
    menu_find_entry_id_loop l id = some e ↔
      ∃ before after, l = before ++ e :: after ∧ e.id = id ∧ ∀ x ∈ before, x.id ≠ id := by
  induction l with
  | nil => simp [menu_find_entry_id_loop]
  | cons x rest ih =>
    by_cases hx : x.id = id
    · simp only [menu_find_entry_id_loop, hx, if_true, Option.some.injEq]
      constructor
      · intro hxe
        subst hxe
        exact ⟨[], rest, rfl, hx, by simp⟩
      · rintro ⟨before, after, hl, _, hb⟩
        cases before with
        | nil =>
          simp only [List.nil_append, List.cons.injEq] at hl
          exact hl.1
        | cons b bs =>
          simp only [List.cons_append, List.cons.injEq] at hl
          exact absurd (hl.1 ▸ hx) (hb b (by simp))
    · simp only [menu_find_entry_id_loop, hx, if_false, ih]
      constructor
      · rintro ⟨before, after, hl, he, hb⟩
        refine ⟨x :: before, after, by simp [hl], he, ?_⟩
        intro y hy
        rcases List.mem_cons.1 hy with rfl | hy
        · exact hx
        · exact hb y hy
      · rintro ⟨before, after, hl, he, hb⟩
        cases before with
        | nil =>
          simp only [List.nil_append, List.cons.injEq] at hl
          exact absurd (hl.1 ▸ he) hx
        | cons b bs =>
          simp only [List.cons_append, List.cons.injEq] at hl
          exact ⟨bs, after, hl.2, he, fun y hy => hb y (by simp [hy])⟩

/-- C6: `menu_find_entry_id self id` returns an entry `e` exactly when `e`
stands in the entry list with the id asked for and no entry before it has
that id (the earliest match); it returns not-found exactly when no entry has
that id, in particular on a menu without entries. -/
theorem menu_find_entry_id_spec (self : ObMenu) (id : Int) :
    (∀ e, menu_find_entry_id self id = some e ↔
      ∃ before after, self.entries = before ++ e :: after ∧ e.id = id ∧
        ∀ x ∈ before, x.id ≠ id) ∧
    (menu_find_entry_id self id = none ↔ ∀ e ∈ self.entries, e.id ≠ id) ∧
    (self.entries = [] → menu_find_entry_id self id = none) := by
  refine ⟨fun e => menu_find_entry_id_loop_some _ _ e, menu_find_entry_id_loop_none _ _, ?_⟩
  intro hnil
  simp [menu_find_entry_id, hnil, menu_find_entry_id_loop]

/-- C6 at an entry list in which two entries share the id 0: the search
returns the Normal entry, which stands first. -/
theorem menu_find_entry_id_spec_witness :
    ∃ e, menu_find_entry_id (example_root 0 7) 0 = some e ∧
      e.type = .OB_MENU_ENTRY_TYPE_NORMAL ∧
      ∃ before after, (example_root 0 7).entries = before ++ e :: after ∧ e.id = 0 ∧
        ∀ x ∈ before, x.id ≠ 0 :=
  ⟨_, rfl, rfl, ((menu_find_entry_id_spec (example_root 0 7) 0).1 _).1 rfl⟩

/-! ### Unknown names -/

/-- C8: addressed to a name that is not registered, each of `menu_free`,
`menu_clear_entries`, `menu_add_normal`, `menu_add_submenu`,
`menu_add_separator`, the three `menu_set_*_func` and `menu_show` only issues
the warning of `menu_from_name`: the table (names, titles, owner data,
callbacks, entry lists) and the allocator are as before, and no call to the
frame component is made. -/
theorem unregistered_name_noop (s : State) (name : String)
    (h : g_hash_table_lookup s.menu_hash name = none)
    (id x y : Int) (label : Option String) (actions : List ObAction) (submenu : String)
    (func client : gpointer) :
    (warned name s).menu_hash = s.menu_hash ∧
    (warned name s).next_addr = s.next_addr ∧
    (warned name s).trace = s.trace ++ [Event.warn_no_menu name] ∧
    menu_free name s = warned name s ∧
    menu_clear_entries name s = warned name s ∧
    menu_add_normal name id label actions s = warned name s ∧
    menu_add_submenu name id submenu s = warned name s ∧
    menu_add_separator name id s = warned name s ∧
    menu_set_update_func name func s = warned name s ∧
    menu_set_execute_func name func s = warned name s ∧
    menu_set_destroy_func name func s = warned name s ∧
    menu_show name x y client s = warned name s := by
  have hm := menu_from_name_of_unregistered name s h
  refine ⟨rfl, rfl, rfl, ?_, ?_, ?_, ?_, ?_, ?_, ?_, ?_, ?_⟩
  · simp [menu_free, hm, warned]
  · simp [menu_clear_entries, hm, warned]
  · simp [menu_add_normal, hm, warned]
  · simp [menu_add_submenu, hm, warned]
  · simp [menu_add_separator, hm, warned]
  · simp [menu_set_update_func, hm, warned]
  · simp [menu_set_execute_func, hm, warned]
  · simp [menu_set_destroy_func, hm, warned]
  · simp [menu_show, hm, warned]

/-- C8 at the example registry, for the unknown name "nope". -/
theorem unregistered_name_noop_witness :
    g_hash_table_lookup demo_state.menu_hash "nope" = none ∧
    menu_show "nope" 3 4 none demo_state = warned "nope" demo_state ∧
    menu_free "nope" demo_state = warned "nope" demo_state :=
  ⟨rfl,
   (unregistered_name_noop demo_state "nope" rfl 0 3 4 none [] "sub" none none).2.2.2.2.2.2.2.2.2.2.2,
   (unregistered_name_noop demo_state "nope" rfl 0 3 4 none [] "sub" none none).2.2.2.1⟩

/-! ### Shutdown -/

theorem g_hash_table_destroy_eq (t : Table) (tr : List Event) :
    g_hash_table_destroy (some t) tr = tr ++ t.flatMap (fun kv => teardown_events kv.2) := by
  induction t generalizing tr with
  | nil => simp [g_hash_table_destroy]
  | cons kv rest ih =>
    simp only [g_hash_table_destroy, List.foldl_cons] at ih ⊢
    rw [ih, menu_destroy_hash_value_eq]
    simp

theorem destroy_calls_entry_events (e : ObMenuEntry) : destroy_calls (entry_events e) = [] := by
  cases ht : e.type <;>
    simp [entry_events, ht, destroy_calls, List.filterMap_append]

theorem destroy_calls_teardown_events (self : ObMenu) :
    destroy_calls (teardown_events self) =
      match self.destroy_func with
      | some fn => [(fn, self.addr, self.data)]
      | none => [] := by
  have h : ∀ l : List ObMenuEntry, destroy_calls (l.flatMap entry_events) = [] := by
    intro l
    induction l with
    | nil => rfl
    | cons e rest ih =>
      have he := destroy_calls_entry_events e
      simp only [destroy_calls] at he ih
      simp [destroy_calls, List.filterMap_append, he, ih]
  have h2 := h self.entries
  simp only [destroy_calls] at h2
  cases hd : self.destroy_func <;>
    simp [teardown_events, hd, destroy_calls, List.filterMap_append, h2]

/-- C7, as the code has it: on a started registry `menu_shutdown` first calls
`menu_frame_hide_all` and then tears the menus down one after the other in
table order; each teardown invokes that menu's destroy callback (when one is
installed) and then releases that menu's entries, so each installed destroy
callback is invoked exactly once, before the entries of its own menu are
released.  Afterwards every lookup reports not-found. -/
theorem menu_shutdown_spec (s : State) (t : Table) (h : s.menu_hash = some t) :
    (menu_shutdown s).trace =
      s.trace ++ Event.menu_frame_hide_all :: t.flatMap (fun kv => teardown_events kv.2) ∧
    destroy_calls (t.flatMap (fun kv => teardown_events kv.2)) =
      t.filterMap (fun kv => kv.2.destroy_func.map (fun fn => (fn, kv.2.addr, kv.2.data))) ∧
    (∀ name, g_hash_table_lookup (menu_shutdown s).menu_hash name = none ∧
      (menu_from_name name (menu_shutdown s)).1 = none) := by
  refine ⟨?_, ?_, ?_⟩
  · simp [menu_shutdown, h, g_hash_table_destroy_eq]
  · clear h
    induction t with
    | nil => rfl
    | cons kv rest ih =>
      have hk := destroy_calls_teardown_events kv.2
      simp only [destroy_calls] at hk ih
      cases hd : kv.2.destroy_func <;>
        simp [destroy_calls, List.filterMap_append, hk, ih, hd]
  · intro name
    have hl : g_hash_table_lookup (menu_shutdown s).menu_hash name = none := by
      simp [menu_shutdown, g_hash_table_lookup]
    exact ⟨hl, by rw [menu_from_name_of_unregistered name _ hl]⟩

/-- C7 at the two-menu registry `shutdown_state`: the calls of its shutdown. -/
theorem menu_shutdown_spec_witness :
    shutdown_state.menu_hash.isSome = true ∧
    destroy_calls (menu_shutdown shutdown_state).trace = [(50, 0, some 10), (60, 1, some 20)] ∧
    g_hash_table_lookup (menu_shutdown shutdown_state).menu_hash "a" = none :=
  ⟨rfl, by rw [(menu_shutdown_spec shutdown_state _ rfl).1]; rfl,
   ((menu_shutdown_spec shutdown_state _ rfl).2.2 "a").1⟩

/-- C7 as stated fails: shutting down the two-menu registry `shutdown_state`
invokes the destroy callback of the second menu after the entry of the first
menu has been released, whichever of the two menus the table yields first. -/
theorem menu_shutdown_destroy_after_entry_free :
    ¬ destroy_calls_before_entry_frees (menu_shutdown shutdown_state).trace ∧
    ¬ destroy_calls_before_entry_frees (menu_shutdown shutdown_state_rev).trace := by
  constructor
  · intro hall
    exact hall [Event.menu_frame_hide_all, Event.destroy_func 50 0 (some 10)]
      [Event.destroy_func 60 1 (some 20),
       Event.entry_free { type := .OB_MENU_ENTRY_TYPE_SEPARATOR, menu := 1, id := 2,
                          data := { normal := { label := none, enabled := false, actions := [] },
                                    submenu := { submenu := none } } }]
      _ rfl 60 1 (some 20) (by simp)
  · intro hall
    exact hall [Event.menu_frame_hide_all, Event.destroy_func 60 1 (some 20)]
      [Event.destroy_func 50 0 (some 10),
       Event.entry_free { type := .OB_MENU_ENTRY_TYPE_SEPARATOR, menu := 0, id := 1,
                          data := { normal := { label := none, enabled := false, actions := [] },
                                    submenu := { submenu := none } } }]
      _ rfl 50 0 (some 10) (by simp)

/-! ### Callback slots -/

/-- C11: with `name` registered, each of `menu_set_update_func`,
`menu_set_execute_func` and `menu_set_destroy_func` makes its own slot equal
to the given callback, whatever was installed before, and leaves the other
two slots, address, name, title, owner data and entries of the menu, every
other menu and the trace as they were; of two consecutive sets the last one
wins. -/
theorem menu_set_func_spec (s : State) (name : String) (self : ObMenu) (fn fn0 : gpointer)
    (h : g_hash_table_lookup s.menu_hash name = some self) :
    (g_hash_table_lookup (menu_set_update_func name fn s).menu_hash name =
        some { self with update_func := fn } ∧
      (∀ other, other ≠ name →
        g_hash_table_lookup (menu_set_update_func name fn s).menu_hash other =
          g_hash_table_lookup s.menu_hash other) ∧
      (menu_set_update_func name fn s).trace = s.trace ∧
      g_hash_table_lookup
          (menu_set_update_func name fn (menu_set_update_func name fn0 s)).menu_hash name =
        some { self with update_func := fn }) ∧
    (g_hash_table_lookup (menu_set_execute_func name fn s).menu_hash name =
        some { self with execute_func := fn } ∧
      (∀ other, other ≠ name →
        g_hash_table_lookup (menu_set_execute_func name fn s).menu_hash other =
          g_hash_table_lookup s.menu_hash other) ∧
      (menu_set_execute_func name fn s).trace = s.trace ∧
      g_hash_table_lookup
          (menu_set_execute_func name fn (menu_set_execute_func name fn0 s)).menu_hash name =
        some { self with execute_func := fn }) ∧
    (g_hash_table_lookup (menu_set_destroy_func name fn s).menu_hash name =
        some { self with destroy_func := fn } ∧
      (∀ other, other ≠ name →
        g_hash_table_lookup (menu_set_destroy_func name fn s).menu_hash other =
          g_hash_table_lookup s.menu_hash other) ∧
      (menu_set_destroy_func name fn s).trace = s.trace ∧
      g_hash_table_lookup
          (menu_set_destroy_func name fn (menu_set_destroy_func name fn0 s)).menu_hash name =
        some { self with destroy_func := fn }) := by
  have hu : ∀ (f : gpointer) (s1 : State) (m : ObMenu),
      g_hash_table_lookup s1.menu_hash name = some m →
      menu_set_update_func name f s1 =
        { s1 with menu_hash := store s1.menu_hash name { m with update_func := f } } := by
    intro f s1 m hm
    simp [menu_set_update_func, menu_from_name_of_registered name s1 m hm]
  have he : ∀ (f : gpointer) (s1 : State) (m : ObMenu),
      g_hash_table_lookup s1.menu_hash name = some m →
      menu_set_execute_func name f s1 =
        { s1 with menu_hash := store s1.menu_hash name { m with execute_func := f } } := by
    intro f s1 m hm
    simp [menu_set_execute_func, menu_from_name_of_registered name s1 m hm]
  have hd : ∀ (f : gpointer) (s1 : State) (m : ObMenu),
      g_hash_table_lookup s1.menu_hash name = some m →
      menu_set_destroy_func name f s1 =
        { s1 with menu_hash := store s1.menu_hash name { m with destroy_func := f } } := by
    intro f s1 m hm
    simp [menu_set_destroy_func, menu_from_name_of_registered name s1 m hm]
  refine ⟨⟨?_, ?_, ?_, ?_⟩, ⟨?_, ?_, ?_, ?_⟩, ⟨?_, ?_, ?_, ?_⟩⟩
  · rw [hu fn s self h]; exact lookup_store_self _ _ self _ h
  · intro other hne; rw [hu fn s self h]; exact lookup_store_of_ne _ _ _ _ hne
  · rw [hu fn s self h]
  · have h1 : g_hash_table_lookup (menu_set_update_func name fn0 s).menu_hash name =
        some { self with update_func := fn0 } := by
      rw [hu fn0 s self h]; exact lookup_store_self _ _ self _ h
    rw [hu fn _ _ h1]; exact lookup_store_self _ _ _ _ h1
  · rw [he fn s self h]; exact lookup_store_self _ _ self _ h
  · intro other hne; rw [he fn s self h]; exact lookup_store_of_ne _ _ _ _ hne
  · rw [he fn s self h]
  · have h1 : g_hash_table_lookup (menu_set_execute_func name fn0 s).menu_hash name =
        some { self with execute_func := fn0 } := by
      rw [he fn0 s self h]; exact lookup_store_self _ _ self _ h
    rw [he fn _ _ h1]; exact lookup_store_self _ _ _ _ h1
  · rw [hd fn s self h]; exact lookup_store_self _ _ self _ h
  · intro other hne; rw [hd fn s self h]; exact lookup_store_of_ne _ _ _ _ hne
  · rw [hd fn s self h]
  · have h1 : g_hash_table_lookup (menu_set_destroy_func name fn0 s).menu_hash name =
        some { self with destroy_func := fn0 } := by
      rw [hd fn0 s self h]; exact lookup_store_self _ _ self _ h
    rw [hd fn _ _ h1]; exact lookup_store_self _ _ _ _ h1

/-- C11 at the example registry: two update callbacks are set on "sub" in a
row. -/
theorem menu_set_func_spec_witness :
    g_hash_table_lookup demo_state.menu_hash "sub" = some (example_sub 1) ∧
    g_hash_table_lookup
        (menu_set_update_func "sub" (some 9)
          (menu_set_update_func "sub" (some 8) demo_state)).menu_hash "sub" =
      some { example_sub 1 with update_func := some 9 } :=
  ⟨rfl, (menu_set_func_spec demo_state "sub" (example_sub 1) (some 9) (some 8) rfl).1.2.2.2⟩

/-! ### Teardown order -/

/-- C16: `menu_entry_free` does nothing on a null entry; for a Normal entry
with actions a1, ..., ak it calls `action_free` on a1, then a2, ..., then ak,
and then releases the entry record; for a Submenu or Separator entry it only
releases the entry record, with no call to `action_free`.  In no case does
it reach the table, so a referenced submenu is neither freed nor altered. -/
theorem menu_entry_free_spec (e : ObMenuEntry) (tr : List Event) :
    menu_entry_free none tr = tr ∧
    (e.type = .OB_MENU_ENTRY_TYPE_NORMAL →
      menu_entry_free (some e) tr =
        tr ++ e.data.normal.actions.map Event.action_free ++ [Event.entry_free e] ∧
      action_frees (e.data.normal.actions.map Event.action_free ++ [Event.entry_free e]) =
        e.data.normal.actions) ∧
    (e.type ≠ .OB_MENU_ENTRY_TYPE_NORMAL →
      menu_entry_free (some e) tr = tr ++ [Event.entry_free e]) := by
  refine ⟨rfl, ?_, ?_⟩
  · intro ht
    have h1 := action_frees_entry_events e
    simp only [entry_events, ht, if_true] at h1
    exact ⟨by simp [menu_entry_free, ht, menu_entry_free_actions_eq], h1⟩
  · intro ht
    cases hty : e.type with
    | OB_MENU_ENTRY_TYPE_NORMAL => exact absurd hty ht
    | OB_MENU_ENTRY_TYPE_SUBMENU => simp [menu_entry_free, hty]
    | OB_MENU_ENTRY_TYPE_SEPARATOR => simp [menu_entry_free, hty]

/-- C16 at a Normal entry with the three actions 4, 5, 6. -/
theorem menu_entry_free_spec_witness :
    menu_entry_free
        (some { type := .OB_MENU_ENTRY_TYPE_NORMAL, menu := 0, id := 0,
                data := { normal := { label := some "x", enabled := true,
                                      actions := [4, 5, 6] },
                          submenu := { submenu := none } } }) [] =
      [Event.action_free 4, Event.action_free 5, Event.action_free 6,
       Event.entry_free { type := .OB_MENU_ENTRY_TYPE_NORMAL, menu := 0, id := 0,
                          data := { normal := { label := some "x", enabled := true,
                                                actions := [4, 5, 6] },
                                    submenu := { submenu := none } } }] :=
  ((menu_entry_free_spec _ []).2.1 rfl).1

/-- C15: `menu_destroy_hash_value` invokes an installed destroy callback
exactly once, with the menu and its owner data, before any entry of the menu
is freed, and then frees every entry of the menu, in list order; without a
destroy callback it invokes none and still frees every entry.  Both
`g_hash_table_remove` (under `menu_free`) and `g_hash_table_destroy` (under
`menu_shutdown`) tear a menu down through it. -/
theorem menu_destroy_hash_value_spec (self : ObMenu) (tr : List Event) :
    (∀ fn, self.destroy_func = some fn →
      menu_destroy_hash_value self tr =
        tr ++ Event.destroy_func fn self.addr self.data :: self.entries.flatMap entry_events) ∧
    (self.destroy_func = none →
      menu_destroy_hash_value self tr = tr ++ self.entries.flatMap entry_events) ∧
    destroy_calls (self.entries.flatMap entry_events) = [] ∧
    entry_frees (self.entries.flatMap entry_events) = self.entries ∧
    (∀ (t : Table) (key : String), t.lookup key = some self →
      (g_hash_table_remove (some t) key tr).2 = menu_destroy_hash_value self tr) ∧
    (∀ key, g_hash_table_destroy (some [(key, self)]) tr = menu_destroy_hash_value self tr) := by
  refine ⟨?_, ?_, ?_, entry_frees_flatMap _, ?_, ?_⟩
  · intro fn hfn
    simp [menu_destroy_hash_value_eq, teardown_events, hfn]
  · intro hnone
    simp [menu_destroy_hash_value_eq, teardown_events, hnone]
  · induction self.entries with
    | nil => rfl
    | cons e rest ih =>
      have he := destroy_calls_entry_events e
      simp only [destroy_calls] at he ih
      simp [destroy_calls, List.filterMap_append, he, ih]
  · intro t key hl
    simp [g_hash_table_remove, hl]
  · intro key
    simp [g_hash_table_destroy]

/-- C15 at the first menu of `shutdown_state`: callback 50 is called once,
then the one entry is freed. -/
theorem menu_destroy_hash_value_spec_witness :
    menu_destroy_hash_value
        { addr := 0, name := "a", title := some "A", data := some 10,
          entries := [{ type := .OB_MENU_ENTRY_TYPE_SEPARATOR, menu := 0, id := 1,
                        data := { normal := { label := none, enabled := false, actions := [] },
                                  submenu := { submenu := none } } }],
          update_func := none, execute_func := none, destroy_func := some 50 } [] =
      [Event.destroy_func 50 0 (some 10),
       Event.entry_free { type := .OB_MENU_ENTRY_TYPE_SEPARATOR, menu := 0, id := 1,
                          data := { normal := { label := none, enabled := false, actions := [] },
                                    submenu := { submenu := none } } }] :=
  (menu_destroy_hash_value_spec _ []).1 50 rfl

/-! ### The builder, case by case -/

/-- The body of `parse_menu`, for an arbitrary node. -/
theorem parse_menu_unfold (env : Env) (node : XmlNode) (state : ObMenuParseState) (s : State) :
    parse_menu env node state s =
      match parse_attr_string "id" node with
      | none => (state, s)
      | some name =>
        let r : Option (ObMenuParseState × State) :=
          if (g_hash_table_lookup s.menu_hash name).isNone then
            match parse_attr_string "plugin" node with
            | some plugin => some (state, (menu_open_plugin env name plugin s).2)
            | none =>
              match parse_attr_string "label" node with
              | none => none
              | some title =>
                match menu_new name (some title) none s with
                | (true, s1) =>
                  let state1 := { state with menus := g_slist_prepend state.menus name }
                  let r1 := parse_tree env node.children state1 s1
                  some ({ r1.1 with menus := g_slist_delete_link_head r1.1.menus }, r1.2)
                | (false, s1) => some (state, s1)
          else some (state, s)
        match r with
        | none => (state, s)
        | some (state2, s2) =>
          match state2.menus with
          | [] => (state2, s2)
          | top :: _ => (state2, menu_add_submenu top 0 name s2) := by
  cases node with
  | mk nm attrs children =>
    rw [parse_menu]
    rfl

theorem parse_menu_of_no_id (env : Env) (node : XmlNode) (state : ObMenuParseState) (s : State)
    (hid : parse_attr_string "id" node = none) :
    parse_menu env node state s = (state, s) := by
  rw [parse_menu_unfold, hid]

theorem parse_menu_of_registered (env : Env) (node : XmlNode) (state : ObMenuParseState)
    (s : State) (name : String) (c : ObMenu)
    (hid : parse_attr_string "id" node = some name)
    (hreg : g_hash_table_lookup s.menu_hash name = some c) :
    parse_menu env node state s =
      match state.menus with
      | [] => (state, s)
      | top :: _ => (state, menu_add_submenu top 0 name s) := by
  rw [parse_menu_unfold, hid]
  simp [hreg]

theorem parse_menu_of_no_label (env : Env) (node : XmlNode) (state : ObMenuParseState)
    (s : State) (name : String)
    (hid : parse_attr_string "id" node = some name)
    (hreg : g_hash_table_lookup s.menu_hash name = none)
    (hplugin : parse_attr_string "plugin" node = none)
    (hlabel : parse_attr_string "label" node = none) :
    parse_menu env node state s = (state, s) := by
  rw [parse_menu_unfold, hid]
  simp [hreg, hplugin, hlabel]

theorem parse_menu_of_plugin (env : Env) (node : XmlNode) (state : ObMenuParseState)
    (s : State) (name plugin : String)
    (hid : parse_attr_string "id" node = some name)
    (hreg : g_hash_table_lookup s.menu_hash name = none)
    (hplugin : parse_attr_string "plugin" node = some plugin) :
    parse_menu env node state s =
      match state.menus with
      | [] => (state, (menu_open_plugin env name plugin s).2)
      | top :: _ => (state, menu_add_submenu top 0 name (menu_open_plugin env name plugin s).2) := by
  rw [parse_menu_unfold, hid]
  simp [hreg, hplugin]

theorem menu_new_fst_of_unregistered (name : String) (title : Option String) (data : gpointer)
    (s : State) (h : g_hash_table_lookup s.menu_hash name = none) :
    (menu_new name title data s).1 = true := by
  simp [menu_new, h]

theorem parse_tree_cons (env : Env) (node : XmlNode) (next : List XmlNode)
    (state : ObMenuParseState) (s : State) :
    parse_tree env (node :: next) state s =
      parse_tree env next
        (if node.name = "menu" then parse_menu env node state s
         else if node.name = "item" then parse_menu_item env node state s
         else if node.name = "separator" then parse_menu_separator state s
         else (state, s)).1
        (if node.name = "menu" then parse_menu env node state s
         else if node.name = "item" then parse_menu_item env node state s
         else if node.name = "separator" then parse_menu_separator state s
         else (state, s)).2 := by
  rw [parse_tree]

theorem parse_menu_item_stack (env : Env) (node : XmlNode) (state : ObMenuParseState)
    (s : State) : (parse_menu_item env node state s).1 = state := by
  unfold parse_menu_item
  split
  · rfl
  · split <;> rfl

theorem parse_menu_separator_stack (state : ObMenuParseState) (s : State) :
    (parse_menu_separator state s).1 = state := by
  unfold parse_menu_separator
  split <;> rfl

theorem parse_menu_of_label_raw (env : Env) (node : XmlNode) (state : ObMenuParseState)
    (s : State) (name title : String)
    (hid : parse_attr_string "id" node = some name)
    (hreg : g_hash_table_lookup s.menu_hash name = none)
    (hplugin : parse_attr_string "plugin" node = none)
    (hlabel : parse_attr_string "label" node = some title) :
    parse_menu env node state s =
      match (parse_tree env node.children { menus := name :: state.menus }
              (menu_new name (some title) none s).2).1.menus.tail with
      | [] =>
        ({ menus := (parse_tree env node.children { menus := name :: state.menus }
              (menu_new name (some title) none s).2).1.menus.tail },
         (parse_tree env node.children { menus := name :: state.menus }
              (menu_new name (some title) none s).2).2)
      | top :: _ =>
        ({ menus := (parse_tree env node.children { menus := name :: state.menus }
              (menu_new name (some title) none s).2).1.menus.tail },
         menu_add_submenu top 0 name
           (parse_tree env node.children { menus := name :: state.menus }
              (menu_new name (some title) none s).2).2) := by
  have hnew := menu_new_fst_of_unregistered name (some title) none s hreg
  rcases hm : menu_new name (some title) none s with ⟨b, s1⟩
  simp only [hm] at hnew
  subst hnew
  rw [parse_menu_unfold, hid]
  simp only [hreg, hplugin, hlabel, hm, Option.isNone_none, if_true, g_slist_prepend,
    g_slist_delete_link_head]

mutual
/-- The open-menu stack after `parse_menu` is the stack before it. -/
theorem parse_menu_stack (env : Env) :
    ∀ (node : XmlNode) (state : ObMenuParseState) (s : State),
      (parse_menu env node state s).1 = state
  | .mk nm attrs children, state, s => by
    have ih := parse_tree_stack env children
    cases hid : parse_attr_string "id" (XmlNode.mk nm attrs children) with
    | none => rw [parse_menu_of_no_id env _ state s hid]
    | some name =>
      cases hreg : g_hash_table_lookup s.menu_hash name with
      | some c =>
        rw [parse_menu_of_registered env _ state s name c hid hreg]
        split <;> rfl
      | none =>
        cases hplugin : parse_attr_string "plugin" (XmlNode.mk nm attrs children) with
        | some plugin =>
          rw [parse_menu_of_plugin env _ state s name plugin hid hreg hplugin]
          split <;> rfl
        | none =>
          cases hlabel : parse_attr_string "label" (XmlNode.mk nm attrs children) with
          | none => rw [parse_menu_of_no_label env _ state s name hid hreg hplugin hlabel]
          | some title =>
            rw [parse_menu_of_label_raw env _ state s name title hid hreg hplugin hlabel]
            simp only [XmlNode.children, ih, List.tail_cons]
            split <;> rfl
/-- The open-menu stack after `parse_tree` is the stack before it. -/
theorem parse_tree_stack (env : Env) :
    ∀ (nodes : List XmlNode) (state : ObMenuParseState) (s : State),
      (parse_tree env nodes state s).1 = state
  | [], state, s => by rw [parse_tree]
  | node :: next, state, s => by
    have ihm := parse_menu_stack env node state s
    have iht := parse_tree_stack env next
    rw [parse_tree_cons, iht]
    by_cases h1 : node.name = "menu"
    · simp [h1, ihm]
    · by_cases h2 : node.name = "item"
      · simp [h1, h2, parse_menu_item_stack]
      · by_cases h3 : node.name = "separator"
        · simp [h1, h2, h3, parse_menu_separator_stack]
        · simp [h1, h2, h3]
end

theorem parse_menu_of_label (env : Env) (node : XmlNode) (state : ObMenuParseState)
    (s : State) (name title : String)
    (hid : parse_attr_string "id" node = some name)
    (hreg : g_hash_table_lookup s.menu_hash name = none)
    (hplugin : parse_attr_string "plugin" node = none)
    (hlabel : parse_attr_string "label" node = some title) :
    parse_menu env node state s =
      match state.menus with
      | [] =>
        (state, (parse_tree env node.children { menus := name :: state.menus }
                  (menu_new name (some title) none s).2).2)
      | top :: _ =>
        (state, menu_add_submenu top 0 name
                  (parse_tree env node.children { menus := name :: state.menus }
                    (menu_new name (some title) none s).2).2) := by
  rw [parse_menu_of_label_raw env node state s name title hid hreg hplugin hlabel]
  simp only [parse_tree_stack, List.tail_cons]

theorem menu_add_submenu_of_registered (s : State) (parent child : String) (id : Int)
    (p c : ObMenu) (hp : g_hash_table_lookup s.menu_hash parent = some p)
    (hc : g_hash_table_lookup s.menu_hash child = some c) :
    menu_add_submenu parent id child s =
      { s with menu_hash := store s.menu_hash parent { p with entries := p.entries ++
          [{ type := .OB_MENU_ENTRY_TYPE_SUBMENU, menu := p.addr, id := id,
             data := { normal := { label := none, enabled := false, actions := [] },
                       submenu := { submenu := some c.addr } } }] } } := by
  simp [menu_add_submenu, menu_from_name_of_registered parent s p hp,
    menu_from_name_of_registered child s c hc, menu_entry_new, g_list_append]

theorem menu_free_of_registered (s : State) (name : String) (self : ObMenu) (t : Table)
    (hs : s.menu_hash = some t) (hl : t.lookup name = some self) (hname : self.name = name) :
    menu_free name s =
      { s with menu_hash := some (t.remove name), trace := s.trace ++ teardown_events self } := by
  have h : g_hash_table_lookup s.menu_hash name = some self := by
    simp [g_hash_table_lookup, hs, hl]
  simp [menu_free, menu_from_name_of_registered name s self h, g_hash_table_remove, hs,
    hname, hl, menu_destroy_hash_value_eq]

/-! ### Removal leaves the other menus alone -/

/-- C19: with `name` registered (under the menu's own name field), after
`menu_free name` every other registered menu is still registered as the very
same record: same entry list, same entry count, and every Submenu entry that
pointed at the freed menu is still on its list, neither removed nor
retargeted. -/
theorem menu_free_keeps_others (s : State) (name : String) (self : ObMenu)
    (h : g_hash_table_lookup s.menu_hash name = some self) (hname : self.name = name) :
    ∀ (other : String) (m : ObMenu), other ≠ name →
      g_hash_table_lookup s.menu_hash other = some m →
        g_hash_table_lookup (menu_free name s).menu_hash other = some m ∧
        ∃ m1, g_hash_table_lookup (menu_free name s).menu_hash other = some m1 ∧
          m1.entries = m.entries ∧ m1.entries.length = m.entries.length ∧
          ∀ e ∈ m.entries, e.type = .OB_MENU_ENTRY_TYPE_SUBMENU →
            e.data.submenu.submenu = some self.addr →
              e ∈ m1.entries ∧ e.data.submenu.submenu = some self.addr := by
  intro other m hne hm
  cases hs : s.menu_hash with
  | none => simp [g_hash_table_lookup, hs] at h
  | some t =>
    have hl : t.lookup name = some self := by simpa [g_hash_table_lookup, hs] using h
    have hkeep : g_hash_table_lookup (menu_free name s).menu_hash other = some m := by
      rw [menu_free_of_registered s name self t hs hl hname]
      simp only [g_hash_table_lookup, Table.lookup_remove_of_ne t name other hne]
      simpa [g_hash_table_lookup, hs] using hm
    exact ⟨hkeep, m, hkeep, rfl, rfl, fun e he _ htarget => ⟨he, htarget⟩⟩

/-- C19 at the example registry: freeing "sub" leaves "root" with its three
entries, the Submenu entry pointing at the freed record included. -/
theorem menu_free_keeps_others_witness :
    g_hash_table_lookup demo_state.menu_hash "sub" = some (example_sub 1) ∧
    (example_sub 1).name = "sub" ∧
    g_hash_table_lookup (menu_free "sub" demo_state).menu_hash "root" =
      some (example_root 0 7) ∧
    g_hash_table_lookup (menu_free "sub" demo_state).menu_hash "sub" = none :=
  ⟨rfl, rfl,
   (menu_free_keeps_others demo_state "sub" (example_sub 1) rfl rfl "root" (example_root 0 7)
      (by decide) rfl).1,
   rfl⟩

/-! ### Menu nodes that are skipped or already known -/

/-- C14: a menu node without an id attribute, and a menu node whose id is not
registered and that has neither a plugin nor a label attribute, is skipped by
`parse_menu`: program state (table, allocator, trace) and open-menu stack
are returned as they were, so no menu is created, no entry is added and the
children are not processed; and the siblings that follow are processed from
the same state as if the node were not there. -/
theorem parse_menu_skips_malformed (env : Env) (node : XmlNode) (state : ObMenuParseState)
    (s : State)
    (hskip : parse_attr_string "id" node = none ∨
      ∃ name, parse_attr_string "id" node = some name ∧
        g_hash_table_lookup s.menu_hash name = none ∧
        parse_attr_string "plugin" node = none ∧
        parse_attr_string "label" node = none) :
    parse_menu env node state s = (state, s) ∧
    (node.name = "menu" →
      ∀ next, parse_tree env (node :: next) state s = parse_tree env next state s) := by
  have hp : parse_menu env node state s = (state, s) := by
    rcases hskip with hid | ⟨name, hid, hreg, hplugin, hlabel⟩
    · exact parse_menu_of_no_id env node state s hid
    · exact parse_menu_of_no_label env node state s name hid hreg hplugin hlabel
  refine ⟨hp, ?_⟩
  intro hname next
  rw [parse_tree_cons]
  simp [hname, hp]

/-- C14 at the example registry: a menu node with the unknown id "x" and no
label, standing before a separator, inside the open menu "sub". -/
theorem parse_menu_skips_malformed_witness :
    (parse_attr_string "id" unlabelled_node = none ∨
      ∃ name, parse_attr_string "id" unlabelled_node = some name ∧
        g_hash_table_lookup demo_state.menu_hash name = none ∧
        parse_attr_string "plugin" unlabelled_node = none ∧
        parse_attr_string "label" unlabelled_node = none) ∧
    parse_menu demo_env unlabelled_node { menus := ["sub"] } demo_state =
      ({ menus := ["sub"] }, demo_state) ∧
    parse_tree demo_env [unlabelled_node, .mk "separator" [] []] { menus := ["sub"] } demo_state =
      parse_tree demo_env [.mk "separator" [] []] { menus := ["sub"] } demo_state :=
  ⟨Or.inr ⟨"x", rfl, rfl, rfl, rfl⟩,
   (parse_menu_skips_malformed demo_env unlabelled_node { menus := ["sub"] } demo_state
      (Or.inr ⟨"x", rfl, rfl, rfl, rfl⟩)).1,
   (parse_menu_skips_malformed demo_env unlabelled_node { menus := ["sub"] } demo_state
      (Or.inr ⟨"x", rfl, rfl, rfl, rfl⟩)).2 rfl _⟩

/-- C20: for a menu node whose id is already registered, `parse_menu` looks
at neither label, plugin attribute nor children.  With an empty open-menu
stack the program state is returned as it was.  With a non-empty stack the
result is that of `menu_add_submenu` on the top of the stack: no menu is
created; if the top menu is registered, one Submenu entry with id 0 pointing
at the record of that id is appended to it (a self-reference when the top
menu is that menu itself) and every other menu is unchanged; if it is not
registered, the table is unchanged. -/
theorem parse_menu_registered_spec (env : Env) (node : XmlNode) (state : ObMenuParseState)
    (s : State) (name : String) (c : ObMenu)
    (hid : parse_attr_string "id" node = some name)
    (hreg : g_hash_table_lookup s.menu_hash name = some c) :
    (state.menus = [] → parse_menu env node state s = (state, s)) ∧
    (∀ top rest, state.menus = top :: rest →
      parse_menu env node state s = (state, menu_add_submenu top 0 name s) ∧
      (menu_add_submenu top 0 name s).next_addr = s.next_addr ∧
      (g_hash_table_lookup s.menu_hash top = none →
        (menu_add_submenu top 0 name s).menu_hash = s.menu_hash) ∧
      (∀ p, g_hash_table_lookup s.menu_hash top = some p →
        g_hash_table_lookup (menu_add_submenu top 0 name s).menu_hash top =
          some { p with entries := p.entries ++
            [{ type := .OB_MENU_ENTRY_TYPE_SUBMENU, menu := p.addr, id := 0,
               data := { normal := { label := none, enabled := false, actions := [] },
                         submenu := { submenu := some c.addr } } }] } ∧
        (∀ other, other ≠ top →
          g_hash_table_lookup (menu_add_submenu top 0 name s).menu_hash other =
            g_hash_table_lookup s.menu_hash other))) := by
  have hp := parse_menu_of_registered env node state s name c hid hreg
  constructor
  · intro hempty
    rw [hp, hempty]
  · intro top rest hstack
    refine ⟨by rw [hp, hstack], ?_, ?_, ?_⟩
    · cases htop : g_hash_table_lookup s.menu_hash top with
      | none => simp [menu_add_submenu, menu_from_name_of_unregistered top s htop]
      | some p => rw [menu_add_submenu_of_registered s top name 0 p c htop hreg]
    · intro htop
      simp [menu_add_submenu, menu_from_name_of_unregistered top s htop]
    · intro p htop
      rw [menu_add_submenu_of_registered s top name 0 p c htop hreg]
      exact ⟨lookup_store_self _ _ p _ htop, fun other hne => lookup_store_of_ne _ _ _ _ hne⟩

/-- C20 at the example registry: a node naming "root" again, met while
"root" is the open menu, only adds a link from "root" to itself. -/
theorem parse_menu_registered_spec_witness :
    parse_attr_string "id" root_again_node = some "root" ∧
    g_hash_table_lookup demo_state.menu_hash "root" = some (example_root 0 7) ∧
    parse_menu demo_env root_again_node { menus := ["root"] } demo_state =
      ({ menus := ["root"] }, menu_add_submenu "root" 0 "root" demo_state) ∧
    g_hash_table_lookup (menu_add_submenu "root" 0 "root" demo_state).menu_hash "root" =
      some { example_root 0 7 with entries := (example_root 0 7).entries ++
        [{ type := .OB_MENU_ENTRY_TYPE_SUBMENU, menu := 0, id := 0,
           data := { normal := { label := none, enabled := false, actions := [] },
                     submenu := { submenu := some 0 } } }] } :=
  ⟨rfl, rfl,
   ((parse_menu_registered_spec demo_env root_again_node { menus := ["root"] } demo_state
      "root" (example_root 0 7) rfl rfl).2 "root" [] rfl).1,
   (((parse_menu_registered_spec demo_env root_again_node { menus := ["root"] } demo_state
      "root" (example_root 0 7) rfl rfl).2 "root" [] rfl).2.2.2 (example_root 0 7) rfl).1⟩

/-! ### Item nodes -/

theorem parse_menu_item_loop_eq (env : Env) (l : List XmlNode) (acts : List ObAction) :
    parse_menu_item_loop env l acts =
      acts ++ (l.filter (fun c => decide (xmlStrcasecmp c.name "action" = 0))).map
        env.action_parse := by
  induction l generalizing acts with
  | nil => simp [parse_menu_item_loop]
  | cons c rest ih =>
    by_cases hc : xmlStrcasecmp c.name "action" = 0
    · simp [parse_menu_item_loop, hc, ih, g_list_append]
    · simp [parse_menu_item_loop, hc, ih]

theorem menu_add_normal_of_registered (s : State) (name : String) (id : Int)
    (label : Option String) (actions : List ObAction) (self : ObMenu)
    (h : g_hash_table_lookup s.menu_hash name = some self) :
    menu_add_normal name id label actions s =
      { s with menu_hash := store s.menu_hash name { self with entries := self.entries ++
          [{ type := .OB_MENU_ENTRY_TYPE_NORMAL, menu := self.addr, id := id,
             data := { normal := { label := label, enabled := true, actions := actions },
                       submenu := { submenu := none } } }] } } := by
  simp [menu_add_normal, menu_from_name_of_registered name s self h, menu_entry_new,
    g_list_append, g_strdup]

/-- C13, as the code has it: `parse_menu_item` returns the program state as
it was when the open-menu stack is empty or the node has no label attribute.
Otherwise it calls `menu_add_normal` on the top of the stack with id 0, the
label, and one parsed action, in document order, for every immediate child
whose name equals "action" up to ASCII letter case, and for no other child;
when the top menu is registered this appends exactly that one Normal entry
to it and changes no other menu. -/
theorem parse_menu_item_spec (env : Env) (node : XmlNode) (state : ObMenuParseState)
    (s : State) :
    (state.menus = [] → parse_menu_item env node state s = (state, s)) ∧
    (parse_attr_string "label" node = none → parse_menu_item env node state s = (state, s)) ∧
    (∀ top rest label, state.menus = top :: rest →
      parse_attr_string "label" node = some label →
        parse_menu_item env node state s =
          (state, menu_add_normal top 0 (some label)
            ((node.children.filter (fun c => decide (xmlStrcasecmp c.name "action" = 0))).map
              env.action_parse) s) ∧
        ∀ p, g_hash_table_lookup s.menu_hash top = some p →
          g_hash_table_lookup (parse_menu_item env node state s).2.menu_hash top =
            some { p with entries := p.entries ++
              [{ type := .OB_MENU_ENTRY_TYPE_NORMAL, menu := p.addr, id := 0,
                 data := { normal :=
                             { label := some label, enabled := true,
                               actions :=
                                 (node.children.filter
                                   (fun c => decide (xmlStrcasecmp c.name "action" = 0))).map
                                   env.action_parse },
                           submenu := { submenu := none } } }] } ∧
          (∀ other, other ≠ top →
            g_hash_table_lookup (parse_menu_item env node state s).2.menu_hash other =
              g_hash_table_lookup s.menu_hash other)) := by
  refine ⟨?_, ?_, ?_⟩
  · intro hempty
    simp [parse_menu_item, hempty]
  · intro hlabel
    unfold parse_menu_item
    split
    · rfl
    · simp [hlabel]
  · intro top rest label hstack hlabel
    have hp : parse_menu_item env node state s =
        (state, menu_add_normal top 0 (some label)
          ((node.children.filter (fun c => decide (xmlStrcasecmp c.name "action" = 0))).map
            env.action_parse) s) := by
      simp [parse_menu_item, hstack, hlabel, parse_menu_item_loop_eq]
    refine ⟨hp, ?_⟩
    intro p htop
    rw [hp]
    simp only
    rw [menu_add_normal_of_registered s top 0 (some label) _ p htop]
    exact ⟨lookup_store_self _ _ p _ htop, fun other hne => lookup_store_of_ne _ _ _ _ hne⟩

/-- C13 at the example registry: the item of the example document, met while
"sub" is the open menu. -/
theorem parse_menu_item_spec_witness :
    g_hash_table_lookup demo_state.menu_hash "sub" = some (example_sub 1) ∧
    g_hash_table_lookup
        (parse_menu_item demo_env (.mk "item" [("label", "Open")] [example_action])
          { menus := ["sub"] } demo_state).2.menu_hash "sub" =
      some { example_sub 1 with entries :=
        [{ type := .OB_MENU_ENTRY_TYPE_NORMAL, menu := 1, id := 0,
           data := { normal := { label := some "Open", enabled := true, actions := [7] },
                     submenu := { submenu := none } } }] } :=
  ⟨rfl,
   (((parse_menu_item_spec demo_env (.mk "item" [("label", "Open")] [example_action])
      { menus := ["sub"] } demo_state).2.2 "sub" [] "Open" rfl rfl).2 (example_sub 1) rfl).1⟩

/-- C13 as stated fails: the only child of `capital_action_item` is named
"ACTION", so no child is named "action", and yet the Normal entry appended
to the open menu "sub" carries one parsed action. -/
theorem parse_menu_item_collects_capital_action :
    capital_action_item.children.filter (fun c => decide (c.name = "action")) = [] ∧
    g_hash_table_lookup
        (parse_menu_item demo_env capital_action_item { menus := ["sub"] }
          demo_state).2.menu_hash "sub" =
      some { example_sub 1 with entries :=
        [{ type := .OB_MENU_ENTRY_TYPE_NORMAL, menu := 1, id := 0,
           data := { normal := { label := some "Run", enabled := true, actions := [7] },
                     submenu := { submenu := none } } }] } :=
  ⟨rfl, rfl⟩

/-! ### Stack discipline of the builder -/

theorem others_kept_refl (top : String) (s : State) : others_kept top s s :=
  fun _ _ _ h => h

theorem others_kept_trans (top : String) (s s1 s2 : State)
    (h1 : others_kept top s s1) (h2 : others_kept top s1 s2) : others_kept top s s2 :=
  fun key m hne h => h2 key m hne (h1 key m hne h)

theorem others_kept_of_store (top : String) (s : State) (m : ObMenu) (tr : List Event) :
    others_kept top s { s with menu_hash := store s.menu_hash top m, trace := tr } := by
  intro key m0 hne h
  simp only
  rw [lookup_store_of_ne _ _ _ _ hne]
  exact h

theorem menu_add_normal_others_kept (top : String) (id : Int) (label : Option String)
    (actions : List ObAction) (s : State) :
    others_kept top s (menu_add_normal top id label actions s) := by
  cases h : g_hash_table_lookup s.menu_hash top with
  | none =>
    simp only [menu_add_normal, menu_from_name_of_unregistered top s h]
    exact fun _ _ _ hk => hk
  | some p =>
    rw [menu_add_normal_of_registered s top id label actions p h]
    exact others_kept_of_store top s _ s.trace

theorem menu_add_separator_others_kept (top : String) (id : Int) (s : State) :
    others_kept top s (menu_add_separator top id s) := by
  cases h : g_hash_table_lookup s.menu_hash top with
  | none =>
    simp only [menu_add_separator, menu_from_name_of_unregistered top s h]
    exact fun _ _ _ hk => hk
  | some p =>
    simp only [menu_add_separator, menu_from_name_of_registered top s p h]
    exact others_kept_of_store top s _ s.trace

theorem menu_add_submenu_others_kept (top child : String) (id : Int) (s : State) :
    others_kept top s (menu_add_submenu top id child s) := by
  cases h : g_hash_table_lookup s.menu_hash top with
  | none =>
    simp only [menu_add_submenu, menu_from_name_of_unregistered top s h]
    exact fun _ _ _ hk => hk
  | some p =>
    cases hc : g_hash_table_lookup s.menu_hash child with
    | none =>
      simp only [menu_add_submenu, menu_from_name_of_registered top s p h,
        menu_from_name_of_unregistered child s hc]
      exact fun _ _ _ hk => hk
    | some c =>
      rw [menu_add_submenu_of_registered s top child id p c h hc]
      exact others_kept_of_store top s _ s.trace

theorem menu_new_keeps_registered (name : String) (title : Option String) (data : gpointer)
    (s : State) (key : String) (m : ObMenu)
    (h : g_hash_table_lookup s.menu_hash key = some m) :
    g_hash_table_lookup (menu_new name title data s).2.menu_hash key = some m := by
  cases hs : s.menu_hash with
  | none => simp [g_hash_table_lookup, hs] at h
  | some t =>
    have hl : t.lookup key = some m := by simpa [g_hash_table_lookup, hs] using h
    cases hn : t.lookup name with
    | some c =>
      rw [menu_new_of_registered name title data s c (by simp [g_hash_table_lookup, hs, hn])]
      exact h
    | none =>
      rw [menu_new_of_fresh name title data s t hs hn]
      simp [g_hash_table_lookup, Table.lookup_append_of_some t name key _ m hl]

theorem menu_open_plugin_keeps_registered (env : Env) (henv : plugins_keep_menus env)
    (name plugin : String) (s : State) (key : String) (m : ObMenu)
    (h : g_hash_table_lookup s.menu_hash key = some m) :
    g_hash_table_lookup (menu_open_plugin env name plugin s).2.menu_hash key = some m := by
  simp only [menu_open_plugin]
  split
  · split
    · exact henv plugin s key m h
    · exact henv plugin s key m h
  · exact h

theorem parse_menu_item_others_kept (env : Env) (node : XmlNode) (state : ObMenuParseState)
    (s : State) (top : String) (rest : List String) (hstack : state.menus = top :: rest) :
    others_kept top s (parse_menu_item env node state s).2 := by
  cases hl : parse_attr_string "label" node with
  | none =>
    simp only [parse_menu_item, hstack, hl]
    exact others_kept_refl top s
  | some label =>
    simp only [parse_menu_item, hstack, hl]
    exact menu_add_normal_others_kept top 0 _ _ s

theorem parse_menu_separator_others_kept (state : ObMenuParseState) (s : State) (top : String)
    (rest : List String) (hstack : state.menus = top :: rest) :
    others_kept top s (parse_menu_separator state s).2 := by
  simp only [parse_menu_separator, hstack]
  exact menu_add_separator_others_kept top 0 s

mutual
/-- While `top` is the open menu, `parse_menu` changes no other registered
menu, provided that plugins do not. -/
theorem parse_menu_others_kept (env : Env) (henv : plugins_keep_menus env) :
    ∀ (node : XmlNode) (state : ObMenuParseState) (s : State) (top : String)
      (rest : List String), state.menus = top :: rest →
        others_kept top s (parse_menu env node state s).2
  | .mk nm attrs children, state, s, top, rest, hstack => by
    have ih := parse_tree_others_kept env henv children
    cases hid : parse_attr_string "id" (XmlNode.mk nm attrs children) with
    | none =>
      rw [parse_menu_of_no_id env _ state s hid]
      exact others_kept_refl top s
    | some name =>
      cases hreg : g_hash_table_lookup s.menu_hash name with
      | some c =>
        rw [parse_menu_of_registered env _ state s name c hid hreg, hstack]
        exact menu_add_submenu_others_kept top name 0 s
      | none =>
        cases hplugin : parse_attr_string "plugin" (XmlNode.mk nm attrs children) with
        | some plugin =>
          rw [parse_menu_of_plugin env _ state s name plugin hid hreg hplugin, hstack]
          refine others_kept_trans top s _ _ ?_ (menu_add_submenu_others_kept top name 0 _)
          exact fun key m _ h => menu_open_plugin_keeps_registered env henv name plugin s key m h
        | none =>
          cases hlabel : parse_attr_string "label" (XmlNode.mk nm attrs children) with
          | none =>
            rw [parse_menu_of_no_label env _ state s name hid hreg hplugin hlabel]
            exact others_kept_refl top s
          | some title =>
            rw [parse_menu_of_label env _ state s name title hid hreg hplugin hlabel, hstack]
            refine others_kept_trans top s _ _ ?_ (menu_add_submenu_others_kept top name 0 _)
            intro key m _ h
            have hkn : key ≠ name := by
              intro e
              rw [e, hreg] at h
              exact absurd h (by simp)
            exact ih { menus := name :: top :: rest } _ name (top :: rest) rfl key m hkn
              (menu_new_keeps_registered name (some title) none s key m h)
/-- While `top` is the open menu, `parse_tree` changes no other registered
menu, provided that plugins do not. -/
theorem parse_tree_others_kept (env : Env) (henv : plugins_keep_menus env) :
    ∀ (nodes : List XmlNode) (state : ObMenuParseState) (s : State) (top : String)
      (rest : List String), state.menus = top :: rest →
        others_kept top s (parse_tree env nodes state s).2
  | [], state, s, top, rest, _ => by
    rw [parse_tree]
    exact others_kept_refl top s
  | node :: next, state, s, top, rest, hstack => by
    have ihm := parse_menu_others_kept env henv node state s top rest hstack
    have iht := parse_tree_others_kept env henv next
    rw [parse_tree_cons]
    by_cases h1 : node.name = "menu"
    · rw [if_pos h1]
      exact others_kept_trans top s _ _ ihm
        (iht _ _ top rest (by rw [parse_menu_stack]; exact hstack))
    · rw [if_neg h1]
      by_cases h2 : node.name = "item"
      · rw [if_pos h2]
        exact others_kept_trans top s _ _
          (parse_menu_item_others_kept env node state s top rest hstack)
          (iht _ _ top rest (by rw [parse_menu_item_stack]; exact hstack))
      · rw [if_neg h2]
        by_cases h3 : node.name = "separator"
        · rw [if_pos h3]
          exact others_kept_trans top s _ _
            (parse_menu_separator_others_kept state s top rest hstack)
            (iht _ _ top rest (by rw [parse_menu_separator_stack]; exact hstack))
        · rw [if_neg h3]
          exact iht _ _ top rest hstack
end

/-- C17: `parse_menu` returns the open-menu stack it was entered with, for
every node and every state, and so does the walk over a whole document: a
document processed from an empty stack ends with an empty stack.  For a node
that creates the menu `name`, `parse_menu` processes the children with
`name` on top of the stack and, provided that plugins leave registered menus
alone, every menu registered before under another name comes out of the
processing of the children unchanged: what was added went to `name` or to
menus created meanwhile. -/
theorem parse_menu_stack_discipline (env : Env) (node : XmlNode) (state : ObMenuParseState)
    (s : State) :
    (parse_menu env node state s).1.menus = state.menus ∧
    (∀ nodes st, (parse_tree env nodes st s).1.menus = st.menus) ∧
    (∀ nodes, (parse_tree env nodes { menus := [] } s).1.menus = []) ∧
    (plugins_keep_menus env →
      ∀ name title, parse_attr_string "id" node = some name →
        g_hash_table_lookup s.menu_hash name = none →
        parse_attr_string "plugin" node = none →
        parse_attr_string "label" node = some title →
          ∀ key m, key ≠ name → g_hash_table_lookup s.menu_hash key = some m →
            g_hash_table_lookup
              (parse_tree env node.children { menus := name :: state.menus }
                (menu_new name (some title) none s).2).2.menu_hash key = some m) := by
  refine ⟨by rw [parse_menu_stack], fun nodes st => by rw [parse_tree_stack],
    fun nodes => by rw [parse_tree_stack], ?_⟩
  intro henv name title _ _ _ _ key m hne h
  exact parse_tree_others_kept env henv node.children { menus := name :: state.menus } _ name
    state.menus rfl key m hne (menu_new_keeps_registered name (some title) none s key m h)

/-- C17 at the example document, processed into a registry that already
holds the menu "old": the stack is empty again, and "old" is unchanged by
the children of the node that creates "root". -/
theorem parse_menu_stack_discipline_witness :
    plugins_keep_menus demo_env ∧
    (parse_menu demo_env example_doc { menus := [] }
      { menu_hash := some [("old", example_sub 5)], next_addr := 6, trace := [] }).1.menus = [] ∧
    g_hash_table_lookup
      (parse_tree demo_env example_doc.children { menus := ["root"] }
        (menu_new "root" (some "Root") none
          { menu_hash := some [("old", example_sub 5)], next_addr := 6,
            trace := [] }).2).2.menu_hash "old" = some (example_sub 5) :=
  ⟨fun _ _ _ _ h => h,
   (parse_menu_stack_discipline demo_env example_doc { menus := [] }
      { menu_hash := some [("old", example_sub 5)], next_addr := 6, trace := [] }).1,
   (parse_menu_stack_discipline demo_env example_doc { menus := [] }
      { menu_hash := some [("old", example_sub 5)], next_addr := 6, trace := [] }).2.2.2
      (fun _ _ _ _ h => h) "root" "Root" rfl rfl rfl rfl "old" (example_sub 5) (by decide) rfl⟩

/-! ### Well-formedness of the registry -/

theorem Table.mem_of_lookup (t : Table) (k : String) (m : ObMenu)
    (h : t.lookup k = some m) : (k, m) ∈ t := by
  induction t with
  | nil => simp [Table.lookup] at h
  | cons kv rest ih =>
    obtain ⟨k0, v0⟩ := kv
    by_cases h0 : k0 = k
    · simp only [Table.lookup, h0, if_true, Option.some.injEq] at h
      simp [h0, h]
    · simp only [Table.lookup, h0, if_false] at h
      exact List.mem_cons_of_mem _ (ih h)

theorem Table.mem_write (t : Table) (k : String) (m : ObMenu) (kv : String × ObMenu)
    (h : kv ∈ t.write k m) : kv = (k, m) ∨ kv ∈ t := by
  induction t with
  | nil => simp [Table.write] at h
  | cons kv0 rest ih =>
    obtain ⟨k0, v0⟩ := kv0
    by_cases h0 : k0 = k
    · simp only [Table.write, h0, if_true, List.mem_cons] at h
      rcases h with h | h
      · exact Or.inl h
      · exact Or.inr (List.mem_cons_of_mem _ h)
    · simp only [Table.write, h0, if_false, List.mem_cons] at h
      rcases h with h | h
      · exact Or.inr (by simp [h])
      · rcases ih h with h | h
        · exact Or.inl h
        · exact Or.inr (List.mem_cons_of_mem _ h)

theorem Table.addrs_write (t : Table) (k : String) (m old : ObMenu)
    (hl : t.lookup k = some old) (haddr : m.addr = old.addr) :
    (t.write k m).map (fun kv => kv.2.addr) = t.map (fun kv => kv.2.addr) := by
  induction t with
  | nil => simp [Table.write]
  | cons kv0 rest ih =>
    obtain ⟨k0, v0⟩ := kv0
    by_cases h0 : k0 = k
    · simp only [Table.lookup, h0, if_true, Option.some.injEq] at hl
      simp [Table.write, h0, haddr, hl]
    · simp only [Table.lookup, h0, if_false] at hl
      simp [Table.write, h0, ih hl]

theorem Table.well_formed_write (t : Table) (bound : Nat) (k : String) (m old : ObMenu)
    (hwf : t.well_formed bound) (hl : t.lookup k = some old)
    (hname : m.name = old.name) (haddr : m.addr = old.addr)
    (hent : ∀ e ∈ m.entries, e.menu = m.addr) :
    (t.write k m).well_formed bound := by
  obtain ⟨hk, ha, hall⟩ := hwf
  have hold := hall _ (Table.mem_of_lookup t k old hl)
  refine ⟨by rw [Table.keys_write]; exact hk,
    by rw [Table.addrs_write t k m old hl haddr]; exact ha, ?_⟩
  intro kv hkv
  rcases Table.mem_write t k m kv hkv with h | h
  · subst h
    exact ⟨by rw [hname]; exact hold.1, by rw [haddr]; exact hold.2.1, hent⟩
  · exact hall kv h

theorem Table.well_formed_remove (t : Table) (bound : Nat) (k : String)
    (hwf : t.well_formed bound) : (t.remove k).well_formed bound := by
  obtain ⟨hk, ha, hall⟩ := hwf
  have hsub : List.Sublist (t.remove k) t := List.filter_sublist t
  exact ⟨hk.sublist (hsub.map _), ha.sublist (hsub.map _),
    fun kv hkv => hall kv (hsub.subset hkv)⟩

theorem Table.well_formed_append (t : Table) (bound : Nat) (k : String) (m : ObMenu)
    (hwf : t.well_formed bound) (hl : t.lookup k = none)
    (hname : m.name = k) (haddr : m.addr = bound) (hent : m.entries = []) :
    (t ++ [(k, m)]).well_formed (bound + 1) := by
  obtain ⟨hk, ha, hall⟩ := hwf
  have hnot : k ∉ t.map Prod.fst := (Table.lookup_eq_none_iff t k).1 hl
  refine ⟨?_, ?_, ?_⟩
  · rw [List.map_append, List.nodup_append]
    refine ⟨hk, by simp, ?_⟩
    intro a ha1 ha2
    simp only [List.map_cons, List.map_nil, List.mem_singleton] at ha2
    exact hnot (ha2 ▸ ha1)
  · rw [List.map_append, List.nodup_append]
    refine ⟨ha, by simp, ?_⟩
    intro a ha1 ha2
    simp only [List.map_cons, List.map_nil, List.mem_singleton] at ha2
    obtain ⟨kv, hkv, hkv2⟩ := List.mem_map.1 ha1
    have h3 := (hall kv hkv).2.1
    rw [hkv2, ha2, haddr] at h3
    exact absurd h3 (lt_irrefl _)
  · intro kv hkv
    rcases List.mem_append.1 hkv with h | h
    · have := hall kv h
      exact ⟨this.1, Nat.lt_succ_of_lt this.2.1, this.2.2⟩
    · simp only [List.mem_singleton] at h
      subst h
      refine ⟨hname, ?_, by simp [hent]⟩
      show m.addr < bound + 1
      rw [haddr]
      exact Nat.lt_succ_self _

theorem registry_well_formed_of_same (s s1 : State) (hwf : registry_well_formed s)
    (h1 : s1.menu_hash = s.menu_hash) (h2 : s1.next_addr = s.next_addr) :
    registry_well_formed s1 := by
  obtain ⟨t, ht, hw⟩ := hwf
  exact ⟨t, by rw [h1, ht], by rw [h2]; exact hw⟩

theorem registry_well_formed_of_store (s s1 : State) (name : String) (self m : ObMenu)
    (hwf : registry_well_formed s) (hl : g_hash_table_lookup s.menu_hash name = some self)
    (hname : m.name = self.name) (haddr : m.addr = self.addr)
    (hent : ∀ e ∈ m.entries, e.menu = m.addr)
    (h1 : s1.menu_hash = store s.menu_hash name m) (h2 : s1.next_addr = s.next_addr) :
    registry_well_formed s1 := by
  obtain ⟨t, ht, hw⟩ := hwf
  have hlt : t.lookup name = some self := by simpa [g_hash_table_lookup, ht] using hl
  refine ⟨t.write name m, by rw [h1, ht]; rfl, ?_⟩
  rw [h2]
  exact Table.well_formed_write t _ name m self hw hlt hname haddr hent

theorem registry_well_formed_entries (s : State) (name : String) (self : ObMenu)
    (hwf : registry_well_formed s) (hl : g_hash_table_lookup s.menu_hash name = some self) :
    self.name = name ∧ ∀ e ∈ self.entries, e.menu = self.addr := by
  obtain ⟨t, ht, hw⟩ := hwf
  have hlt : t.lookup name = some self := by simpa [g_hash_table_lookup, ht] using hl
  have := hw.2.2 _ (Table.mem_of_lookup t name self hlt)
  exact ⟨this.1, this.2.2⟩

theorem registry_well_formed_step (c : RegistryCall) (s : State)
    (hwf : registry_well_formed s) : registry_well_formed (c.run s) := by
  cases c with
  | menu_new name title data =>
    obtain ⟨t, ht, hw⟩ := hwf
    cases hl : t.lookup name with
    | some m =>
      have h : g_hash_table_lookup s.menu_hash name = some m := by
        simp [g_hash_table_lookup, ht, hl]
      simp only [RegistryCall.run, menu_new_of_registered name title data s m h]
      exact ⟨t, ht, hw⟩
    | none =>
      simp only [RegistryCall.run, menu_new_of_fresh name title data s t ht hl]
      exact ⟨_, rfl, Table.well_formed_append t _ name _ hw hl rfl rfl rfl⟩
  | menu_free name =>
    cases hl : g_hash_table_lookup s.menu_hash name with
    | none =>
      refine registry_well_formed_of_same s _ hwf ?_ ?_ <;>
        simp [RegistryCall.run, menu_free, menu_from_name_of_unregistered name s hl]
    | some self =>
      have hn := (registry_well_formed_entries s name self hwf hl).1
      obtain ⟨t, ht, hw⟩ := hwf
      have hlt : t.lookup name = some self := by simpa [g_hash_table_lookup, ht] using hl
      simp only [RegistryCall.run, menu_free_of_registered s name self t ht hlt hn]
      exact ⟨_, rfl, Table.well_formed_remove t _ name hw⟩
  | menu_clear_entries name =>
    cases hl : g_hash_table_lookup s.menu_hash name with
    | none =>
      refine registry_well_formed_of_same s _ hwf ?_ ?_ <;>
        simp [RegistryCall.run, menu_clear_entries, menu_from_name_of_unregistered name s hl]
    | some self =>
      refine registry_well_formed_of_store s _ name self { self with entries := [] } hwf hl
        rfl rfl (by simp) ?_ ?_ <;>
        simp [RegistryCall.run, menu_clear_entries, menu_from_name_of_registered name s self hl,
          menu_clear_entries_internal, menu_clear_entries_loop_eq]
  | menu_add_normal name id label actions =>
    cases hl : g_hash_table_lookup s.menu_hash name with
    | none =>
      refine registry_well_formed_of_same s _ hwf ?_ ?_ <;>
        simp [RegistryCall.run, menu_add_normal, menu_from_name_of_unregistered name s hl]
    | some self =>
      have hent := (registry_well_formed_entries s name self hwf hl).2
      refine registry_well_formed_of_store s _ name self
        { self with entries := self.entries ++
          [{ type := .OB_MENU_ENTRY_TYPE_NORMAL, menu := self.addr, id := id,
             data := { normal := { label := label, enabled := true, actions := actions },
                       submenu := { submenu := none } } }] } hwf hl rfl rfl ?_ ?_ ?_
      · intro e he
        rcases List.mem_append.1 he with h | h
        · exact hent e h
        · simp only [List.mem_singleton] at h
          rw [h]
      · simp only [RegistryCall.run,
          menu_add_normal_of_registered s name id label actions self hl]
      · simp only [RegistryCall.run,
          menu_add_normal_of_registered s name id label actions self hl]
  | menu_add_submenu name id submenu =>
    cases hl : g_hash_table_lookup s.menu_hash name with
    | none =>
      refine registry_well_formed_of_same s _ hwf ?_ ?_ <;>
        simp [RegistryCall.run, menu_add_submenu, menu_from_name_of_unregistered name s hl]
    | some self =>
      cases hc : g_hash_table_lookup s.menu_hash submenu with
      | none =>
        refine registry_well_formed_of_same s _ hwf ?_ ?_ <;>
          simp [RegistryCall.run, menu_add_submenu, menu_from_name_of_registered name s self hl,
            menu_from_name_of_unregistered submenu s hc]
      | some sub =>
        have hent := (registry_well_formed_entries s name self hwf hl).2
        refine registry_well_formed_of_store s _ name self
          { self with entries := self.entries ++
            [{ type := .OB_MENU_ENTRY_TYPE_SUBMENU, menu := self.addr, id := id,
               data := { normal := { label := none, enabled := false, actions := [] },
                         submenu := { submenu := some sub.addr } } }] } hwf hl rfl rfl ?_ ?_ ?_
        · intro e he
          rcases List.mem_append.1 he with h | h
          · exact hent e h
          · simp only [List.mem_singleton] at h
            rw [h]
        · simp only [RegistryCall.run,
            menu_add_submenu_of_registered s name submenu id self sub hl hc]
        · simp only [RegistryCall.run,
            menu_add_submenu_of_registered s name submenu id self sub hl hc]
  | menu_add_separator name id =>
    cases hl : g_hash_table_lookup s.menu_hash name with
    | none =>
      refine registry_well_formed_of_same s _ hwf ?_ ?_ <;>
        simp [RegistryCall.run, menu_add_separator, menu_from_name_of_unregistered name s hl]
    | some self =>
      have hent := (registry_well_formed_entries s name self hwf hl).2
      refine registry_well_formed_of_store s _ name self
        { self with entries := self.entries ++
            [menu_entry_new self .OB_MENU_ENTRY_TYPE_SEPARATOR id] } hwf hl rfl rfl ?_ ?_ ?_
      · intro e he
        rcases List.mem_append.1 he with h | h
        · exact hent e h
        · simp only [List.mem_singleton] at h
          rw [h]
          rfl
      · simp [RegistryCall.run, menu_add_separator, menu_from_name_of_registered name s self hl,
          g_list_append]
      · simp [RegistryCall.run, menu_add_separator, menu_from_name_of_registered name s self hl]
  | menu_set_update_func name func =>
    cases hl : g_hash_table_lookup s.menu_hash name with
    | none =>
      refine registry_well_formed_of_same s _ hwf ?_ ?_ <;>
        simp [RegistryCall.run, menu_set_update_func, menu_from_name_of_unregistered name s hl]
    | some self =>
      have hent := (registry_well_formed_entries s name self hwf hl).2
      refine registry_well_formed_of_store s _ name self { self with update_func := func }
        hwf hl rfl rfl hent ?_ ?_ <;>
        simp [RegistryCall.run, menu_set_update_func, menu_from_name_of_registered name s self hl]
  | menu_set_execute_func name func =>
    cases hl : g_hash_table_lookup s.menu_hash name with
    | none =>
      refine registry_well_formed_of_same s _ hwf ?_ ?_ <;>
        simp [RegistryCall.run, menu_set_execute_func, menu_from_name_of_unregistered name s hl]
    | some self =>
      have hent := (registry_well_formed_entries s name self hwf hl).2
      refine registry_well_formed_of_store s _ name self { self with execute_func := func }
        hwf hl rfl rfl hent ?_ ?_ <;>
        simp [RegistryCall.run, menu_set_execute_func, menu_from_name_of_registered name s self hl]
  | menu_set_destroy_func name func =>
    cases hl : g_hash_table_lookup s.menu_hash name with
    | none =>
      refine registry_well_formed_of_same s _ hwf ?_ ?_ <;>
        simp [RegistryCall.run, menu_set_destroy_func, menu_from_name_of_unregistered name s hl]
    | some self =>
      have hent := (registry_well_formed_entries s name self hwf hl).2
      refine registry_well_formed_of_store s _ name self { self with destroy_func := func }
        hwf hl rfl rfl hent ?_ ?_ <;>
        simp [RegistryCall.run, menu_set_destroy_func, menu_from_name_of_registered name s self hl]

theorem registry_well_formed_run (calls : List RegistryCall) (s : State)
    (hwf : registry_well_formed s) : registry_well_formed (run_calls calls s) := by
  induction calls generalizing s with
  | nil => exact hwf
  | cons c cs ih => exact ih _ (registry_well_formed_step c s hwf)

theorem registry_well_formed_startup (s0 : State) : registry_well_formed (menu_startup s0) :=
  ⟨[], rfl, by simp [Table.well_formed]⟩

/-- C18: in every state reached from `menu_startup` by any sequence of
`menu_new`, `menu_free`, `menu_clear_entries`, `menu_add_normal`,
`menu_add_submenu`, `menu_add_separator` and `menu_set_*_func` calls, the
registry is well formed; in particular every registered menu carries the
name of the key it is registered under, every entry on its list points back
at its record, and no menu registered under another key has that address. -/
theorem registry_invariant (s0 : State) (calls : List RegistryCall) :
    registry_well_formed (run_calls calls (menu_startup s0)) ∧
    ∀ key m, g_hash_table_lookup (run_calls calls (menu_startup s0)).menu_hash key = some m →
      m.name = key ∧
      (∀ e ∈ m.entries, e.menu = m.addr) ∧
      (∀ key2 m2,
        g_hash_table_lookup (run_calls calls (menu_startup s0)).menu_hash key2 = some m2 →
          m2.addr = m.addr → key2 = key) := by
  have hwf := registry_well_formed_run calls _ (registry_well_formed_startup s0)
  refine ⟨hwf, ?_⟩
  intro key m hl
  have h1 := registry_well_formed_entries _ key m hwf hl
  refine ⟨h1.1, h1.2, ?_⟩
  intro key2 m2 hl2 haddr
  obtain ⟨t, ht, hw⟩ := hwf
  have hm : (key, m) ∈ t :=
    Table.mem_of_lookup t key m (by simpa [g_hash_table_lookup, ht] using hl)
  have hm2 : (key2, m2) ∈ t :=
    Table.mem_of_lookup t key2 m2 (by simpa [g_hash_table_lookup, ht] using hl2)
  have := List.inj_on_of_nodup_map hw.2.1 hm2 hm haddr
  exact (Prod.mk.inj this).1

/-- C18 at a run of six calls: after it "a" holds its two entries, both
pointing back at the record of "a", under its own name. -/
theorem registry_invariant_witness :
    g_hash_table_lookup
        (run_calls
          [.menu_new "a" (some "A") none, .menu_new "b" (some "B") none,
           .menu_add_normal "a" 1 (some "x") [3], .menu_add_submenu "a" 2 "b",
           .menu_free "b", .menu_set_destroy_func "a" (some 9)]
          (menu_startup { menu_hash := none, next_addr := 40, trace := [] })).menu_hash "a" =
      some { addr := 40, name := "a", title := some "A", data := none,
             entries :=
               [{ type := .OB_MENU_ENTRY_TYPE_NORMAL, menu := 40, id := 1,
                  data := { normal := { label := some "x", enabled := true, actions := [3] },
                            submenu := { submenu := none } } },
                { type := .OB_MENU_ENTRY_TYPE_SUBMENU, menu := 40, id := 2,
                  data := { normal := { label := none, enabled := false, actions := [] },
                            submenu := { submenu := some 41 } } }],
             update_func := none, execute_func := none, destroy_func := some 9 } ∧
    ∀ e ∈ ([{ type := .OB_MENU_ENTRY_TYPE_NORMAL, menu := 40, id := 1,
              data := { normal := { label := some "x", enabled := true, actions := [3] },
                        submenu := { submenu := none } } },
            { type := .OB_MENU_ENTRY_TYPE_SUBMENU, menu := 40, id := 2,
              data := { normal := { label := none, enabled := false, actions := [] },
                        submenu := { submenu := some 41 } } }] : List ObMenuEntry),
      e.menu = 40 :=
  ⟨rfl,
   ((registry_invariant { menu_hash := none, next_addr := 40, trace := [] }
      [.menu_new "a" (some "A") none, .menu_new "b" (some "B") none,
       .menu_add_normal "a" 1 (some "x") [3], .menu_add_submenu "a" 2 "b",
       .menu_free "b", .menu_set_destroy_func "a" (some 9)]).2 "a" _ rfl).2.1⟩

/-! ### Linking a menu node into the open menu -/

theorem addrs_kept_refl (s : State) : addrs_kept s s :=
  fun _ m h => ⟨m, h, rfl⟩

theorem addrs_kept_trans (s s1 s2 : State) (h1 : addrs_kept s s1) (h2 : addrs_kept s1 s2) :
    addrs_kept s s2 := by
  intro key m h
  obtain ⟨m1, hm1, ha1⟩ := h1 key m h
  obtain ⟨m2, hm2, ha2⟩ := h2 key m1 hm1
  exact ⟨m2, hm2, by rw [ha2, ha1]⟩

theorem addrs_kept_of_same (s s1 : State) (h : s1.menu_hash = s.menu_hash) :
    addrs_kept s s1 := by
  intro key m hm
  exact ⟨m, by rw [h]; exact hm, rfl⟩

theorem addrs_kept_of_store (s s1 : State) (name : String) (self m : ObMenu)
    (hl : g_hash_table_lookup s.menu_hash name = some self) (haddr : m.addr = self.addr)
    (h1 : s1.menu_hash = store s.menu_hash name m) : addrs_kept s s1 := by
  intro key m0 hm0
  by_cases hk : key = name
  · subst hk
    rw [hl] at hm0
    cases hm0
    exact ⟨m, by rw [h1]; exact lookup_store_self _ _ self _ hl, haddr⟩
  · exact ⟨m0, by rw [h1, lookup_store_of_ne _ _ _ _ hk]; exact hm0, rfl⟩

theorem menu_add_normal_addrs_kept (name : String) (id : Int) (label : Option String)
    (actions : List ObAction) (s : State) :
    addrs_kept s (menu_add_normal name id label actions s) := by
  cases h : g_hash_table_lookup s.menu_hash name with
  | none =>
    refine addrs_kept_of_same s _ ?_
    simp [menu_add_normal, menu_from_name_of_unregistered name s h]
  | some p =>
    refine addrs_kept_of_store s _ name p _ h ?_
      (congrArg State.menu_hash (menu_add_normal_of_registered s name id label actions p h))
    rfl

theorem menu_add_separator_addrs_kept (name : String) (id : Int) (s : State) :
    addrs_kept s (menu_add_separator name id s) := by
  cases h : g_hash_table_lookup s.menu_hash name with
  | none =>
    refine addrs_kept_of_same s _ ?_
    simp [menu_add_separator, menu_from_name_of_unregistered name s h]
  | some p =>
    refine addrs_kept_of_store s _ name p
      { p with entries := p.entries ++ [menu_entry_new p .OB_MENU_ENTRY_TYPE_SEPARATOR id] }
      h rfl ?_
    simp [menu_add_separator, menu_from_name_of_registered name s p h, g_list_append]

theorem menu_add_submenu_addrs_kept (name child : String) (id : Int) (s : State) :
    addrs_kept s (menu_add_submenu name id child s) := by
  cases h : g_hash_table_lookup s.menu_hash name with
  | none =>
    refine addrs_kept_of_same s _ ?_
    simp [menu_add_submenu, menu_from_name_of_unregistered name s h]
  | some p =>
    cases hc : g_hash_table_lookup s.menu_hash child with
    | none =>
      refine addrs_kept_of_same s _ ?_
      simp [menu_add_submenu, menu_from_name_of_registered name s p h,
        menu_from_name_of_unregistered child s hc]
    | some c =>
      refine addrs_kept_of_store s _ name p _ h ?_
        (congrArg State.menu_hash (menu_add_submenu_of_registered s name child id p c h hc))
      rfl

theorem parse_menu_item_addrs_kept (env : Env) (node : XmlNode) (state : ObMenuParseState)
    (s : State) : addrs_kept s (parse_menu_item env node state s).2 := by
  unfold parse_menu_item
  split
  · exact addrs_kept_refl s
  · split
    · exact addrs_kept_refl s
    · exact menu_add_normal_addrs_kept _ 0 _ _ s

theorem parse_menu_separator_addrs_kept (state : ObMenuParseState) (s : State) :
    addrs_kept s (parse_menu_separator state s).2 := by
  unfold parse_menu_separator
  split
  · exact addrs_kept_refl s
  · exact menu_add_separator_addrs_kept _ 0 s

theorem link_addrs_kept (state : ObMenuParseState) (name : String) (s : State) :
    addrs_kept s
      (match state.menus with
       | [] => (state, s)
       | top :: _ => (state, menu_add_submenu top 0 name s)).2 := by
  split
  · exact addrs_kept_refl s
  · exact menu_add_submenu_addrs_kept _ name 0 s

mutual
/-- Provided that plugins leave registered menus alone, every menu
registered before `parse_menu` is registered after it, at the same address. -/
theorem parse_menu_addrs_kept (env : Env) (henv : plugins_keep_menus env) :
    ∀ (node : XmlNode) (state : ObMenuParseState) (s : State),
      addrs_kept s (parse_menu env node state s).2
  | .mk nm attrs children, state, s => by
    have ih := parse_tree_addrs_kept env henv children
    cases hid : parse_attr_string "id" (XmlNode.mk nm attrs children) with
    | none =>
      rw [parse_menu_of_no_id env _ state s hid]
      exact addrs_kept_refl s
    | some name =>
      cases hreg : g_hash_table_lookup s.menu_hash name with
      | some c =>
        rw [parse_menu_of_registered env _ state s name c hid hreg]
        exact link_addrs_kept state name s
      | none =>
        cases hplugin : parse_attr_string "plugin" (XmlNode.mk nm attrs children) with
        | some plugin =>
          rw [parse_menu_of_plugin env _ state s name plugin hid hreg hplugin]
          have h1 : addrs_kept s (menu_open_plugin env name plugin s).2 :=
            fun key m h =>
              ⟨m, menu_open_plugin_keeps_registered env henv name plugin s key m h, rfl⟩
          have h2 := link_addrs_kept state name (menu_open_plugin env name plugin s).2
          refine addrs_kept_trans s _ _ h1 ?_
          cases hst : state.menus with
          | nil => simp only [hst] at h2 ⊢; exact h2
          | cons top rest => simp only [hst] at h2 ⊢; exact h2
        | none =>
          cases hlabel : parse_attr_string "label" (XmlNode.mk nm attrs children) with
          | none =>
            rw [parse_menu_of_no_label env _ state s name hid hreg hplugin hlabel]
            exact addrs_kept_refl s
          | some title =>
            rw [parse_menu_of_label env _ state s name title hid hreg hplugin hlabel]
            have h1 : addrs_kept s (menu_new name (some title) none s).2 :=
              fun key m h => ⟨m, menu_new_keeps_registered name (some title) none s key m h, rfl⟩
            have h2 := ih { menus := name :: state.menus } (menu_new name (some title) none s).2
            have h3 := link_addrs_kept state name
              (parse_tree env children { menus := name :: state.menus }
                (menu_new name (some title) none s).2).2
            refine addrs_kept_trans s _ _ (addrs_kept_trans s _ _ h1 h2) ?_
            cases hst : state.menus with
            | nil => simp only [hst, XmlNode.children] at h3 ⊢; exact h3
            | cons top rest => simp only [hst, XmlNode.children] at h3 ⊢; exact h3
/-- Provided that plugins leave registered menus alone, every menu
registered before `parse_tree` is registered after it, at the same address. -/
theorem parse_tree_addrs_kept (env : Env) (henv : plugins_keep_menus env) :
    ∀ (nodes : List XmlNode) (state : ObMenuParseState) (s : State),
      addrs_kept s (parse_tree env nodes state s).2
  | [], state, s => by
    rw [parse_tree]
    exact addrs_kept_refl s
  | node :: next, state, s => by
    have ihm := parse_menu_addrs_kept env henv node state s
    have iht := parse_tree_addrs_kept env henv next
    rw [parse_tree_cons]
    by_cases h1 : node.name = "menu"
    · rw [if_pos h1]
      exact addrs_kept_trans s _ _ ihm (iht _ _)
    · rw [if_neg h1]
      by_cases h2 : node.name = "item"
      · rw [if_pos h2]
        exact addrs_kept_trans s _ _ (parse_menu_item_addrs_kept env node state s) (iht _ _)
      · rw [if_neg h2]
        by_cases h3 : node.name = "separator"
        · rw [if_pos h3]
          exact addrs_kept_trans s _ _ (parse_menu_separator_addrs_kept state s) (iht _ _)
        · rw [if_neg h3]
          exact iht _ _
end

end Openbox
